import Mathlib

/-!
# go-aws-playground: the trace-level adapter, the queue poller and the raw-mail driver

A shallow embedding of

* `log/xray_log_level.go` (`XrayLogLevel.UnmarshalText`, `MarshalText`),
* `log/xray_zap_logger.go` (`xrayZapLogger.Log`, `NewXrayZapLogger`),
* `cmd/sqs-subscribe/main.go` (`Service.Polling`, `Service.OnMessage`),
* `cmd/ses-send-raw-email/main.go` (`run`),

with the calls that leave the process (SDK clients, tracing SDK, loggers, files)
recorded as events of a trace, and their answers supplied by an environment.
-/

set_option linter.dupNamespace false

namespace GoAwsPlayground

/-! ## Go values -/

/-- A Go `string` or `[]byte`: the sequence of its bytes. -/
abbrev GoString := List Nat

/-- The bytes of a string literal of the source (all of them are ASCII). -/
def lit (s : String) : GoString := s.toList.map Char.toNat

/-- A Go `error` value: its text, and whether `errors.Is(err, context.Canceled)` holds. -/
structure GoError where
  text : GoString
  isCanceled : Bool
deriving DecidableEq, Repr

/-- The calls `fmt.Errorf` and `errors.New` with no `%w` verb: a fresh error that wraps nothing. -/
def Errorf (text : GoString) : GoError := ⟨text, false⟩

/-- The call `fmt.Errorf(prefix + "%w", err)`: the new error wraps `err`. -/
def Wrapf (pre : GoString) (err : GoError) : GoError := ⟨pre ++ err.text, err.isCanceled⟩

/-- The test `errors.Is(err, context.Canceled)` on a possibly nil error. -/
def isContextCanceled : Option GoError → Bool
  | none => false
  | some e => e.isCanceled

/-- A Go `map[string]V`, as an association list with at most one entry per key. -/
abbrev GoMap (V : Type) := List (GoString × V)

/-- The two-result index expression `v, ok := m[k]`. -/
def GoMap.get {V : Type} (m : GoMap V) (k : GoString) : Option V :=
  match m with
  | [] => none
  | (k', v) :: rest => if k' = k then some v else GoMap.get rest k

/-- The assignment `m[k] = v`. -/
def GoMap.set {V : Type} (m : GoMap V) (k : GoString) (v : V) : GoMap V :=
  match m with
  | [] => [(k, v)]
  | (k', v') :: rest => if k' = k then (k, v) :: rest else (k', v') :: GoMap.set rest k v

/-! ## `strings.ToLower` (standard library) -/

/-- Lower-casing of one ASCII byte: `c += 'a' - 'A'` when `'A' <= c && c <= 'Z'`. -/
def asciiLower (c : Nat) : Nat := if 65 ≤ c ∧ c ≤ 90 then c + 32 else c

/-- The function `utf8.DecodeRuneInString`: the first rune of `s` and its width in bytes;
an invalid or short encoding gives `RuneError` (U+FFFD) with width 1. -/
def decodeRune (s : GoString) : Nat × Nat :=
  match s with
  | [] => (0xFFFD, 0)
  | b0 :: rest =>
    if b0 < 0x80 then (b0, 1)
    else if 0xC2 ≤ b0 ∧ b0 ≤ 0xDF then
      match rest with
      | b1 :: _ =>
        if 0x80 ≤ b1 ∧ b1 ≤ 0xBF then ((b0 % 32) * 64 + b1 % 64, 2) else (0xFFFD, 1)
      | _ => (0xFFFD, 1)
    else if 0xE0 ≤ b0 ∧ b0 ≤ 0xEF then
      match rest with
      | b1 :: b2 :: _ =>
        let lo := if b0 = 0xE0 then 0xA0 else 0x80
        let hi := if b0 = 0xED then 0x9F else 0xBF
        if lo ≤ b1 ∧ b1 ≤ hi ∧ 0x80 ≤ b2 ∧ b2 ≤ 0xBF then
          ((b0 % 16) * 4096 + (b1 % 64) * 64 + b2 % 64, 3)
        else (0xFFFD, 1)
      | _ => (0xFFFD, 1)
    else if 0xF0 ≤ b0 ∧ b0 ≤ 0xF4 then
      match rest with
      | b1 :: b2 :: b3 :: _ =>
        let lo := if b0 = 0xF0 then 0x90 else 0x80
        let hi := if b0 = 0xF4 then 0x8F else 0xBF
        if lo ≤ b1 ∧ b1 ≤ hi ∧ 0x80 ≤ b2 ∧ b2 ≤ 0xBF ∧ 0x80 ≤ b3 ∧ b3 ≤ 0xBF then
          ((b0 % 8) * 262144 + (b1 % 64) * 4096 + (b2 % 64) * 64 + b3 % 64, 4)
        else (0xFFFD, 1)
      | _ => (0xFFFD, 1)
    else (0xFFFD, 1)

/-- The function `utf8.AppendRune`: the UTF-8 bytes of a rune (surrogates and runes past
U+10FFFF are written as U+FFFD). -/
def encodeRune (r : Nat) : GoString :=
  if r < 0x80 then [r]
  else if r < 0x800 then [0xC0 + r / 64, 0x80 + r % 64]
  else if (0xD800 ≤ r ∧ r ≤ 0xDFFF) ∨ 0x10FFFF < r then [0xEF, 0xBF, 0xBD]
  else if r < 0x10000 then [0xE0 + r / 4096, 0x80 + (r / 64) % 64, 0x80 + r % 64]
  else [0xF0 + r / 262144, 0x80 + (r / 4096) % 64, 0x80 + (r / 64) % 64, 0x80 + r % 64]

/-- The loop of `strings.Map`: every rune of `s` (an invalid byte counts as U+FFFD) is
replaced by the encoding of its image. `fuel` bounds the number of runes. -/
def mapRunes (mapping : Nat → Nat) : Nat → GoString → GoString
  | 0, _ => []
  | fuel + 1, s =>
    if s = [] then []
    else
      let d := decodeRune s
      encodeRune (mapping d.1) ++ mapRunes mapping fuel (s.drop d.2)

/-- The function `strings.Map(mapping, s)` for a mapping that drops no rune. -/
def stringsMap (mapping : Nat → Nat) (s : GoString) : GoString :=
  mapRunes mapping s.length s

/-- The function `unicode.ToLower`. Runes up to `MaxASCII` are lowered in place; for the
others the standard library consults its table `unicode.CaseRanges`, which is
the parameter `caseRanges` (`unicode.To(unicode.LowerCase, r)`). -/
def unicodeToLower (caseRanges : Nat → Nat) (r : Nat) : Nat :=
  if r ≤ 0x7F then (if 65 ≤ r ∧ r ≤ 90 then r + 32 else r) else caseRanges r

/-- The function `strings.ToLower`: a string of ASCII bytes only is lowered byte by byte,
any other string goes through `strings.Map(unicode.ToLower, s)`. -/
def ToLower (caseRanges : Nat → Nat) (s : GoString) : GoString :=
  if s.all (fun c => decide (c < 0x80)) then s.map asciiLower
  else stringsMap (unicodeToLower caseRanges) s

/-- The entries of `unicode.CaseRanges` whose lower case is an ASCII letter:
U+0130 (capital I with dot above, delta -199) and U+212A (Kelvin sign, delta
-8383). The other runes above `MaxASCII` are left in place by this table. -/
def caseRangesIntoASCII (r : Nat) : Nat :=
  if r = 0x130 then 0x130 - 199 else if r = 0x212A then 0x212A - 8383 else r

/-! ## `xraylog.LogLevel` (tracing SDK) -/

/-- Modelled from the spec: the severity type of the tracing SDK, `type LogLevel int`,
whose declaration is a dependency of the repository. -/
abbrev LogLevel := Int

/-- Modelled from the spec: the four severities `debug`, `info`, `warn`, `error`. The SDK
numbers them from 1 (`iota + 1`), so that 0 is no severity. -/
def LogLevelDebug : LogLevel := 1

/-- Modelled from the spec: severity `info`. -/
def LogLevelInfo : LogLevel := 2

/-- Modelled from the spec: severity `warn`. -/
def LogLevelWarn : LogLevel := 3

/-- Modelled from the spec: severity `error`. -/
def LogLevelError : LogLevel := 4

/-- Modelled from the spec: the SDK's `LogLevel.String`, the upper-case name of a severity
and `UNKNOWNLOGLEVEL<n>` for any other number. -/
def LogLevel.String (ll : LogLevel) : GoString :=
  if ll = LogLevelDebug then lit "DEBUG"
  else if ll = LogLevelInfo then lit "INFO"
  else if ll = LogLevelWarn then lit "WARN"
  else if ll = LogLevelError then lit "ERROR"
  else lit "UNKNOWNLOGLEVEL<" ++ lit (toString ll) ++ lit ">"

/-! ## `log/xray_log_level.go` -/

/-- The declaration `type XrayLogLevel xraylog.LogLevel`. -/
abbrev XrayLogLevel := LogLevel

def XrayLogLevelDebug : XrayLogLevel := LogLevelDebug
def XrayLogLevelInfo : XrayLogLevel := LogLevelInfo
def XrayLogLevelWarn : XrayLogLevel := LogLevelWarn
def XrayLogLevelError : XrayLogLevel := LogLevelError

/-- The package variable `xrayLogLevelText` after `init` has run: for each of the four
levels, in order, `xrayLogLevelText[strings.ToLower(e.String())] = e`. -/
def xrayLogLevelText (caseRanges : Nat → Nat) : GoMap LogLevel :=
  [LogLevelDebug, LogLevelInfo, LogLevelWarn, LogLevelError].foldl
    (fun m e => GoMap.set m (ToLower caseRanges (LogLevel.String e)) e) []

/-- The method `(*XrayLogLevel).UnmarshalText`: the receiver's value after the call, and the
returned error. -/
def XrayLogLevel.UnmarshalText (caseRanges : Nat → Nat) (l : XrayLogLevel) (b : GoString) :
    XrayLogLevel × Option GoError :=
  let s := ToLower caseRanges b
  match GoMap.get (xrayLogLevelText caseRanges) s with
  | none => (l, some (Errorf (lit "unknown log level: " ++ s)))
  | some v => (v, none)

/-- The method `XrayLogLevel.MarshalText`. -/
def XrayLogLevel.MarshalText (caseRanges : Nat → Nat) (l : XrayLogLevel) :
    GoString × Option GoError :=
  (ToLower caseRanges (LogLevel.String l), none)

/-- The method `XrayLogLevel.Value`. -/
def XrayLogLevel.Value (l : XrayLogLevel) : LogLevel := l

/-! ### Vocabulary of the claims about level names -/

/-- The four level names with their levels. -/
def levelNames : List (GoString × LogLevel) :=
  [(lit "debug", LogLevelDebug), (lit "info", LogLevelInfo),
   (lit "warn", LogLevelWarn), (lit "error", LogLevelError)]

/-- Byte `d` is byte `c` in some letter case: the same byte, or the capital of the small
letter `c`. -/
def sameLetter (c d : Nat) : Bool :=
  d == c || (decide (97 ≤ c) && decide (c ≤ 122) && d + 32 == c)

/-- The byte string `s` is the word `w` in some letter-casing. -/
def casingOf : GoString → GoString → Bool
  | [], [] => true
  | c :: w, d :: s => sameLetter c d && casingOf w s
  | _, _ => false


/-! ## `go.uber.org/zap` as the adapter and the commands use it -/

/-- The severities of zap that the repository logs at. -/
inductive ZapLevel where
  | Debug
  | Info
  | Warn
  | Error
deriving DecidableEq, Repr

/-- The method `zapcore.Level.CapitalString`: the upper-case name of a zap severity. -/
def ZapLevel.CapitalString : ZapLevel → GoString
  | .Debug => lit "DEBUG"
  | .Info => lit "INFO"
  | .Warn => lit "WARN"
  | .Error => lit "ERROR"

/-- A structured field: `zap.String(key, val)` or `zap.Any(key, level)`. -/
inductive ZapField where
  | String (key : GoString) (val : GoString)
  | Any (key : GoString) (val : LogLevel)
deriving DecidableEq, Repr

/-- A `*zap.SugaredLogger`: whether it is the no-op logger, and the fields added with
`With` so far. -/
structure SugaredLogger where
  isNop : Bool
  fields : List ZapField
deriving DecidableEq, Repr

/-- The method `(*zap.SugaredLogger).With`. -/
def SugaredLogger.With (l : SugaredLogger) (fs : List ZapField) : SugaredLogger :=
  { l with fields := l.fields ++ fs }

/-- The logger `zap.NewNop().Sugar()`. -/
def nop : SugaredLogger := ⟨true, []⟩

/-- One call of `Debug`, `Info`, `Warn`, `Error` (or `Infof`) on a sugared logger: a
record handed to the wrapped logger. -/
structure LogCall where
  logger : SugaredLogger
  level : ZapLevel
  text : GoString
deriving DecidableEq, Repr

/-! ## `log/xray_zap_logger.go` -/

/-- The struct `xrayZapLogger`. -/
structure xrayZapLogger where
  logger : SugaredLogger
  level : LogLevel
  fixLogLevel : XrayLogLevel
deriving DecidableEq, Repr

/-- The closure `chooseLogFunc` of `Log`: the method of `logger` for level `lv`, and
`logger.Info` for a level that is none of the four. -/
def chooseLogFunc (logger : SugaredLogger) (lv : LogLevel) : GoString → LogCall :=
  if lv = LogLevelDebug then fun a => ⟨logger, .Debug, a⟩
  else if lv = LogLevelInfo then fun a => ⟨logger, .Info, a⟩
  else if lv = LogLevelWarn then fun a => ⟨logger, .Warn, a⟩
  else if lv = LogLevelError then fun a => ⟨logger, .Error, a⟩
  else fun a => ⟨logger, .Info, a⟩

/-- The method `(*xrayZapLogger).Log`; `msg` is the text `msg.String()` gives. The result
is the list of records handed to the wrapped logger. -/
def xrayZapLogger.Log (l : xrayZapLogger) (level : LogLevel) (msg : GoString) : List LogCall :=
  if level ≥ l.level then
    let f : GoString → LogCall :=
      if l.fixLogLevel = 0 then chooseLogFunc l.logger level
      else chooseLogFunc (l.logger.With [ZapField.Any (lit "originalLevel") level])
        (XrayLogLevel.Value l.fixLogLevel)
    [f msg]
  else []

/-- The struct `xrayZapLoggerOption`. -/
structure xrayZapLoggerOption where
  fixLogLevel : XrayLogLevel
deriving DecidableEq, Repr

/-- The type `xrayZapLoggerOptionFunc`, a function that updates the option struct it is
given a pointer to. -/
abbrev xrayZapLoggerOptionFunc := xrayZapLoggerOption → xrayZapLoggerOption

/-- The function `WithXrayFixLogLevel`. -/
def WithXrayFixLogLevel (l : XrayLogLevel) : xrayZapLoggerOptionFunc :=
  fun o => { o with fixLogLevel := l }

/-- The function `NewXrayZapLogger`: the options are applied in order to the zero option
struct. -/
def NewXrayZapLogger (sl : SugaredLogger) (level : LogLevel)
    (opts : List xrayZapLoggerOptionFunc) : xrayZapLogger :=
  let opt := opts.foldl (fun o f => f o) (xrayZapLoggerOption.mk 0)
  { logger := sl, level := level, fixLogLevel := opt.fixLogLevel }

/-- The four named levels of the tracing SDK. -/
def namedLevels : List LogLevel :=
  [LogLevelDebug, LogLevelInfo, LogLevelWarn, LogLevelError]

/-! ## Tracing segments and contexts -/

/-- A segment of the tracing SDK: its name, the trace header it was derived from (none for
`xray.BeginSegment`), and its `TraceID`. -/
structure Segment where
  name : GoString
  header : Option GoString
  TraceID : GoString
deriving DecidableEq, Repr

/-- What the commands put into a `context.Context`: the logger stored by `log.ToContext`
and the segment stored by the tracing SDK. -/
structure Context where
  logger : Option SugaredLogger
  segment : Option Segment
deriving DecidableEq, Repr

/-- The function `log.ToContext`. -/
def ToContext (ctx : Context) (logger : SugaredLogger) : Context :=
  { ctx with logger := some logger }

/-- The function `log.Extract`: the stored logger, or the no-op logger. -/
def Extract (ctx : Context) : SugaredLogger :=
  match ctx.logger with
  | some logger => logger
  | none => nop

/-- How a Go function ends: it returns its error result, or it panics. -/
inductive Outcome where
  | returned (err : Option GoError)
  | panicked
deriving DecidableEq, Repr

/-- The value of a named result `retErr` when the deferred functions run. -/
def Outcome.retErr : Outcome → Option GoError
  | .returned err => err
  | .panicked => none


/-! ## `cmd/sqs-subscribe/main.go` -/

namespace SqsSubscribe

/-- The struct `types.Message` of the queue SDK; pointer fields are options. -/
structure Message where
  MessageId : Option GoString
  ReceiptHandle : Option GoString
  Attributes : GoMap GoString
  Body : Option GoString
deriving DecidableEq, Repr

/-- The struct `sqs.ReceiveMessageInput`, with the fields the command sets. -/
structure ReceiveMessageInput where
  QueueUrl : GoString
  AttributeNames : List GoString
  MaxNumberOfMessages : Int
deriving DecidableEq, Repr

/-- The struct `sqs.ReceiveMessageOutput`. -/
structure ReceiveMessageOutput where
  Messages : List Message
deriving DecidableEq, Repr

/-- The struct `sqs.DeleteMessageInput`. -/
structure DeleteMessageInput where
  QueueUrl : GoString
  ReceiptHandle : Option GoString
deriving DecidableEq, Repr

/-- The calls of the command that leave it, in the order they are made. -/
inductive Event where
  | Log (call : LogCall)
  | LoadDefaultConfig (region : GoString)
  | BeginSegment (seg : Segment)
  | NewSegmentFromHeader (seg : Segment)
  | Close (seg : Segment) (err : Option GoError)
  | ReceiveMessage (ctx : Context) (input : ReceiveMessageInput)
  | OutputAsYAML (out : ReceiveMessageOutput)
  | DeleteMessage (ctx : Context) (input : DeleteMessageInput)
deriving DecidableEq, Repr

/-- The package variables and the process environment: `myName`, `*optQueueURL`,
`os.Getenv("AWS_REGION")`. -/
structure Config where
  myName : GoString
  optQueueURL : GoString
  AWS_REGION : GoString
deriving DecidableEq, Repr

/-- What the outside answers while one message is handled: the `TraceID` of the segment
that `xray.NewSegmentFromHeader` returns, and the error of `DeleteMessage`. -/
structure MessageEnv where
  TraceID : GoString
  DeleteMessage : Option GoError

/-- What the outside answers during one turn of the polling loop: the `TraceID` of the
segment `xray.BeginSegment` returns, the result of `ReceiveMessage`, the error
of `playground.OutputAsYAML`, the answers for the message handled `j`-th, and
`parent.Err()` at the time the deferred function runs. -/
structure IterEnv where
  TraceID : GoString
  ReceiveMessage : Except GoError ReceiveMessageOutput
  OutputAsYAML : Option GoError
  onMessage : Nat → MessageEnv
  parentErr : Option GoError

/-- Lines 132-137 of `OnMessage`: the dereference of `msg.ReceiptHandle` (a nil pointer
panics), the log line and the delete call. -/
def OnMessage.delete (cfg : Config) (e : MessageEnv) (ctx : Context) (logger : SugaredLogger)
    (msg : Message) : Outcome × List Event :=
  match msg.ReceiptHandle with
  | none => (.panicked, [])
  | some h =>
    (.returned e.DeleteMessage,
      [Event.Log ⟨logger, .Info, lit "delete " ++ h⟩,
       Event.DeleteMessage ctx ⟨cfg.optQueueURL, msg.ReceiptHandle⟩])

/-- The method `(*Service).OnMessage`. A deferred `seg.Close(retErr)` also runs when the
body panics, with `retErr` still nil. -/
def OnMessage (cfg : Config) (e : MessageEnv) (ctx : Context) (msg : Message) :
    Outcome × List Event :=
  let logger := Extract ctx
  match msg.MessageId with
  | none => (.panicked, [])
  | some id =>
    let logger := logger.With [ZapField.String (lit "messageID") id]
    match GoMap.get msg.Attributes (lit "AWSTraceHeader") with
    | some th =>
      let seg : Segment := ⟨cfg.myName, some th, e.TraceID⟩
      let ctx : Context := { ctx with segment := some seg }
      let logger := logger.With [ZapField.String (lit "traceID") seg.TraceID]
      let ctx := ToContext ctx logger
      let r := OnMessage.delete cfg e ctx logger msg
      (r.1, [Event.NewSegmentFromHeader seg] ++ r.2 ++ [Event.Close seg r.1.retErr])
    | none =>
      let ctx := ToContext ctx logger
      OnMessage.delete cfg e ctx logger msg

/-- The loop `for _, msg := range out.Messages` of `Polling`; `j` counts the messages
handled so far in this turn. -/
def Polling.messages (cfg : Config) (e : Nat → MessageEnv) (ctx : Context) :
    Nat → List Message → Outcome × List Event
  | _, [] => (.returned none, [])
  | j, msg :: rest =>
    match OnMessage cfg (e j) ctx msg with
    | (.returned none, evs) =>
      let r := Polling.messages cfg e ctx (j + 1) rest
      (r.1, evs ++ r.2)
    | (o, evs) => (o, evs)

/-- The input of the receive call: the queue URL, `QueueAttributeNameAll`, at most 10
messages. -/
def receiveInput (cfg : Config) : ReceiveMessageInput :=
  ⟨cfg.optQueueURL, [lit "All"], 10⟩

/-- The body of the function literal of `Polling`, between the `defer` and its return. -/
def Polling.body (cfg : Config) (e : IterEnv) (ctx : Context) (logger : SugaredLogger)
    (seg : Segment) : Outcome × List Event :=
  match e.ReceiveMessage with
  | .error err => (.returned (some err), [Event.ReceiveMessage ctx (receiveInput cfg)])
  | .ok out =>
    match e.OutputAsYAML with
    | some err =>
      (.returned (some err),
        [Event.ReceiveMessage ctx (receiveInput cfg), Event.OutputAsYAML out])
    | none =>
      let r := Polling.messages cfg e.onMessage (ToContext ctx logger) 0 out.Messages
      (r.1,
        [Event.ReceiveMessage ctx (receiveInput cfg), Event.OutputAsYAML out,
         Event.Log ⟨logger.With [ZapField.String (lit "traceID") seg.TraceID], .Info,
           lit (toString out.Messages.length) ++ lit " messages"⟩] ++ r.2)

/-- The error the deferred function of `Polling` closes the segment with: nil when the
returned error is a cancellation and the parent context is cancelled. -/
def Polling.closeErr (retErr parentErr : Option GoError) : Option GoError :=
  if isContextCanceled retErr && isContextCanceled parentErr then none else retErr

/-- One turn of the loop of `Polling`: the function literal with its segment and its
deferred close. -/
def Polling.iteration (cfg : Config) (e : IterEnv) (ctx : Context) (logger : SugaredLogger) :
    Outcome × List Event :=
  let seg : Segment := ⟨cfg.myName ++ lit "-polling", none, e.TraceID⟩
  let inner : Context := { ctx with segment := some seg }
  let r := Polling.body cfg e inner logger seg
  (r.1, [Event.BeginSegment seg] ++ r.2 ++ [Event.Close seg (Polling.closeErr r.1.retErr e.parentErr)])

/-- The loop `for { ... }` of `Polling`, from turn `i` on, for at most `fuel` turns. The
loop goes on exactly when a turn returns nil; `none` means the fuel ran out. -/
def Polling.loop (cfg : Config) (env : Nat → IterEnv) (ctx : Context) (logger : SugaredLogger) :
    Nat → Nat → Option (Outcome × List Event)
  | 0, _ => none
  | fuel + 1, i =>
    match Polling.iteration cfg (env i) ctx logger with
    | (.returned none, evs) =>
      (Polling.loop cfg env ctx logger fuel (i + 1)).map (fun r => (r.1, evs ++ r.2))
    | (o, evs) => some (o, evs)

/-- The method `(*Service).Polling`, run for at most `fuel` turns of its loop. -/
def Polling (cfg : Config) (env : Nat → IterEnv) (ctx : Context) (fuel : Nat) :
    Option (Outcome × List Event) :=
  let logger := Extract ctx
  (Polling.loop cfg env ctx logger fuel 0).map
    (fun r => (r.1, Event.Log ⟨logger, .Info, lit "polling messages from " ++ cfg.optQueueURL⟩ :: r.2))

/-- The function `run`; `logger` is the package variable, `loadErr` the error of
`config.LoadDefaultConfig`. -/
def run (cfg : Config) (loadErr : Option GoError) (env : Nat → IterEnv) (logger : SugaredLogger)
    (ctx : Context) (fuel : Nat) : Option (Outcome × List Event) :=
  if cfg.optQueueURL = [] then
    some (.returned (some (Errorf (lit "--queue-url must be specified"))), [])
  else
    match loadErr with
    | some err =>
      some (.returned (some (Wrapf (lit "config.LoadDefaultConfig: ") err)),
        [Event.LoadDefaultConfig cfg.AWS_REGION])
    | none =>
      (Polling cfg env (ToContext ctx logger) fuel).map
        (fun r => (r.1, Event.LoadDefaultConfig cfg.AWS_REGION :: r.2))

/-- How `main` ends once `run` has returned `err`, with `ctxErr` the value of `ctx.Err()`
then: a plain return, or `logger.Fatalf("%v", err)`, which exits with status 1. -/
inductive Exit where
  | clean
  | fatal (text : GoString)
deriving DecidableEq, Repr

/-- The `if err := run(ctx); err != nil { ... }` of `main`. -/
def mainExit (err ctxErr : Option GoError) : Exit :=
  match err with
  | none => .clean
  | some e =>
    if isContextCanceled (some e) && isContextCanceled ctxErr then .clean
    else .fatal e.text

/-- The `DeleteMessage` calls of a trace, in order. -/
def deletes : List Event → List DeleteMessageInput
  | [] => []
  | Event.DeleteMessage _ input :: rest => input :: deletes rest
  | _ :: rest => deletes rest

/-- The `ReceiveMessage` calls of a trace, in order. -/
def receives : List Event → List ReceiveMessageInput
  | [] => []
  | Event.ReceiveMessage _ input :: rest => input :: receives rest
  | _ :: rest => receives rest

/-- The segments a trace creates, with `xray.BeginSegment` or with
`xray.NewSegmentFromHeader`, in order. -/
def opened : List Event → List Segment
  | [] => []
  | Event.BeginSegment seg :: rest => seg :: opened rest
  | Event.NewSegmentFromHeader seg :: rest => seg :: opened rest
  | _ :: rest => opened rest

/-- The `Close` calls of a trace, each with the error it records, in order. -/
def closes : List Event → List (Segment × Option GoError)
  | [] => []
  | Event.Close seg err :: rest => (seg, err) :: closes rest
  | _ :: rest => closes rest

/-- The traces of `OnMessage` on the messages `msgs`, the first of them being the `j`-th
of its turn, one after the other. -/
def handled (cfg : Config) (e : Nat → MessageEnv) (ctx : Context) :
    Nat → List Message → List Event
  | _, [] => []
  | j, msg :: rest => (OnMessage cfg (e j) ctx msg).2 ++ handled cfg e ctx (j + 1) rest

/-- The traces of the `k` turns of the loop of `Polling` that start with turn `i`, one
after the other. -/
def turns (cfg : Config) (env : Nat → IterEnv) (ctx : Context) (logger : SugaredLogger) :
    Nat → Nat → List Event
  | _, 0 => []
  | i, k + 1 => (Polling.iteration cfg (env i) ctx logger).2 ++ turns cfg env ctx logger (i + 1) k

/-- The segment of a turn of the polling loop. -/
def pollingSegment (cfg : Config) (e : IterEnv) : Segment :=
  ⟨cfg.myName ++ lit "-polling", none, e.TraceID⟩

/-- The request `OnMessage` sends for the message `msg`. -/
def deleteInput (cfg : Config) (msg : Message) : DeleteMessageInput :=
  ⟨cfg.optQueueURL, msg.ReceiptHandle⟩

/-- The trace of a turn of the polling loop that receives `out`, writes it, runs
`OnMessage` on the messages `done` and closes its segment with `err`. -/
def turnTrace (cfg : Config) (e : IterEnv) (ctx : Context) (logger : SugaredLogger)
    (out : ReceiveMessageOutput) (done : List Message) (err : Option GoError) : List Event :=
  [Event.BeginSegment (pollingSegment cfg e),
   Event.ReceiveMessage { ctx with segment := some (pollingSegment cfg e) } (receiveInput cfg),
   Event.OutputAsYAML out,
   Event.Log ⟨logger.With [ZapField.String (lit "traceID") e.TraceID], .Info,
     lit (toString out.Messages.length) ++ lit " messages"⟩]
  ++ handled cfg e.onMessage
      (ToContext { ctx with segment := some (pollingSegment cfg e) } logger) 0 done
  ++ [Event.Close (pollingSegment cfg e) err]

/-- The first line of the trace of `Polling`. -/
def pollingBanner (cfg : Config) (ctx : Context) : Event :=
  Event.Log ⟨Extract ctx, .Info, lit "polling messages from " ++ cfg.optQueueURL⟩

/-- A sample configuration. -/
def sampleConfig : Config where
  myName := lit "sqs-subscribe"
  optQueueURL := lit "https://sqs.example/q"
  AWS_REGION := lit "us-east-1"

/-- The error `context.Canceled`. -/
def Canceled : GoError := ⟨lit "context canceled", true⟩

/-- A sample message with a trace header among its attributes. -/
def sampleMessage : Message where
  MessageId := some (lit "m1")
  ReceiptHandle := some (lit "h1")
  Attributes := [(lit "AWSTraceHeader", lit "Root=1-5759e988-bd862e3fe1be46a994272793")]
  Body := some (lit "hello")

/-- A second sample message, with no attribute. -/
def sampleMessage2 : Message where
  MessageId := some (lit "m2")
  ReceiptHandle := some (lit "h2")
  Attributes := []
  Body := some (lit "world")

/-- A sample turn: the receive call is answered with the cancellation error, and the
parent context is cancelled when the deferred function runs. -/
def canceledTurn : IterEnv where
  TraceID := lit "1-00000000-000000000000000000000001"
  ReceiveMessage := .error Canceled
  OutputAsYAML := none
  onMessage := fun _ => ⟨[], none⟩
  parentErr := some Canceled

/-- A sample turn: two messages are received, the response is written and every delete
call succeeds. -/
def goodTurn : IterEnv where
  TraceID := lit "1-00000000-000000000000000000000002"
  ReceiveMessage := .ok ⟨[sampleMessage, sampleMessage2]⟩
  OutputAsYAML := none
  onMessage := fun _ => ⟨lit "1-5759e988-bd862e3fe1be46a994272793", none⟩
  parentErr := none

/-- A sample turn: two messages are received and every delete call would succeed, but
writing the response to standard output fails. -/
def yamlFailTurn : IterEnv where
  TraceID := lit "1-00000000-000000000000000000000003"
  ReceiveMessage := .ok ⟨[sampleMessage, sampleMessage2]⟩
  OutputAsYAML := some (Errorf (lit "write /dev/stdout: file already closed"))
  onMessage := fun _ => ⟨lit "1-5759e988-bd862e3fe1be46a994272793", none⟩
  parentErr := none

/-- A sample turn: two messages are received and the delete call for the second one
fails. -/
def deleteFailTurn : IterEnv where
  TraceID := lit "1-00000000-000000000000000000000004"
  ReceiveMessage := .ok ⟨[sampleMessage, sampleMessage2]⟩
  OutputAsYAML := none
  onMessage := fun j =>
    ⟨lit "1-5759e988-bd862e3fe1be46a994272793",
      if j = 1 then some (Errorf (lit "ReceiptHandleIsInvalid")) else none⟩
  parentErr := none

end SqsSubscribe

/-! ## `cmd/ses-send-raw-email/main.go` -/

namespace SesSendRawEmail

/-- The struct `mail.Address` of the standard library. -/
structure Address where
  Name : GoString
  Address : GoString
deriving DecidableEq, Repr

/-- A `*gomail.Message` as the command uses it: the header fields set with `SetHeader` and
the body set with `SetBody` (content type and text). -/
structure GoMessage where
  header : GoMap (List GoString)
  body : Option (GoString × GoString)
deriving DecidableEq, Repr

/-- The function `gomail.NewMessage`. -/
def NewMessage : GoMessage := ⟨[], none⟩

/-- The function `needsEncoding` of the package `mime`: some rune of `s` is neither a
printable ASCII character nor a tab. A byte of a multi-byte or invalid encoding
is above `~`, as its rune is. -/
def needsEncoding (s : GoString) : Bool :=
  s.any (fun b => (decide (b < 0x20) || decide (b > 0x7E)) && !(b == 9))

/-- One upper-case hexadecimal digit (`upperhex` of the package `mime`). -/
def upperhex (n : Nat) : Nat := if n % 16 < 10 then 48 + n % 16 else 55 + n % 16

/-- Whether the Q encoding writes the byte `b` as it is. -/
def qPlain (b : Nat) : Bool :=
  decide (0x21 ≤ b) && decide (b ≤ 0x7E) && !(b == 0x3D) && !(b == 0x3F) && !(b == 0x5F)

/-- The function `writeQString` of the package `mime`: a space becomes `_`, a plain byte
stays, any other byte becomes `=` and two hexadecimal digits. -/
def writeQString (s : GoString) : GoString :=
  s.flatMap (fun b =>
    if b = 0x20 then [0x5F]
    else if qPlain b then [b]
    else [0x3D, upperhex (b / 16), upperhex b])

/-- The loop of `WordEncoder.qEncode` for the charset UTF-8, on the bytes still to encode
and the length of the current word: a rune that would bring the content of the
word past 63 bytes starts a new encoded word after `?=`, CR, LF and a space.
`fuel` bounds the number of runes. -/
def qEncodeLoop : Nat → GoString → Nat → GoString
  | 0, _, _ => []
  | _ + 1, [], _ => []
  | fuel + 1, b :: rest, currentLen =>
    let runeLen := if decide (0x20 ≤ b) && qPlain b then 1 else (decodeRune (b :: rest)).2
    let encLen := if decide (0x20 ≤ b) && qPlain b then 1 else 3 * runeLen
    if currentLen + encLen > 63 then
      lit "?=" ++ [13, 10, 32] ++ lit "=?UTF-8?q?" ++ writeQString ((b :: rest).take runeLen)
        ++ qEncodeLoop fuel ((b :: rest).drop runeLen) encLen
    else
      writeQString ((b :: rest).take runeLen)
        ++ qEncodeLoop fuel ((b :: rest).drop runeLen) (currentLen + encLen)

/-- The method `(*gomail.Message).encodeString` of a message made by `NewMessage`:
`mime.QEncoding.Encode("UTF-8", value)`, which returns the value itself when it
needs no encoding and its encoded words otherwise. -/
def encodeString (value : GoString) : GoString :=
  if needsEncoding value then
    lit "=?UTF-8?q?" ++ qEncodeLoop value.length value 0 ++ lit "?="
  else value

/-- The method `(*gomail.Message).SetHeader`: `encodeHeader` replaces each element of the
slice `value` by its encoding, in place, and the slice is stored under the
field name. The result is the message and the slice as the call leaves it,
which is what a caller that passed a slice with `value...` sees afterwards. -/
def GoMessage.SetHeader (m : GoMessage) (field : GoString) (value : List GoString) :
    GoMessage × List GoString :=
  let value := value.map encodeString
  ({ m with header := GoMap.set m.header field value }, value)

/-- The method `(*gomail.Message).SetBody`. -/
def GoMessage.SetBody (m : GoMessage) (contentType body : GoString) : GoMessage :=
  { m with body := some (contentType, body) }

/-- The flags of the command: `optTo`, `optCC`, `optBCC` and the values the string flags
point to. -/
structure Flags where
  optTo : List GoString
  optCC : List GoString
  optBCC : List GoString
  optBody : GoString
  optFrom : GoString
  optSubject : GoString
  optMessageID : GoString
  optConfigurationSet : GoString
deriving DecidableEq, Repr

/-- The struct `ses.SendRawEmailInput`, with `RawMessage.Data` in place of `RawMessage`. -/
structure SendRawEmailInput where
  RawMessage : GoString
  Destinations : List GoString
  ConfigurationSetName : Option GoString
deriving DecidableEq, Repr

/-- The struct `ses.SendRawEmailOutput`. -/
structure SendRawEmailOutput where
  MessageId : Option GoString
deriving DecidableEq, Repr

/-- The calls of the command that leave it, in the order they are made. -/
inductive Event where
  | ReadFile (name : GoString)
  | StderrWrite (data : GoString)
  | LoadDefaultConfig (region : GoString)
  | BeginSegment (seg : Segment)
  | SendRawEmail (input : SendRawEmailInput)
  | OutputAsYAML (out : SendRawEmailOutput)
  | Close (seg : Segment) (err : Option GoError)
deriving DecidableEq, Repr

/-- What the outside answers to `run`: the package variable `myName`, the result of
`os.ReadFile`, the function `mail.ParseAddress`, the 16 random bytes that
`uuid.NewString` draws, the bytes `m.WriteTo` renders a message to,
`os.Getenv("AWS_REGION")`, the error of `config.LoadDefaultConfig`, the
`TraceID` of the segment, the result of `SendRawEmail` and the error of
`playground.OutputAsYAML`. -/
structure Env where
  myName : GoString
  ReadFile : GoString → Except GoError GoString
  ParseAddress : GoString → Except GoError Address
  random : List Nat
  WriteTo : GoMessage → GoString
  AWS_REGION : GoString
  LoadDefaultConfig : Option GoError
  TraceID : GoString
  SendRawEmail : Except GoError SendRawEmailOutput
  OutputAsYAML : Option GoError

/-- One lower-case hexadecimal digit, as `hex.Encode` writes it. -/
def hexDigit (n : Nat) : Nat := if n % 16 < 10 then 48 + n % 16 else 87 + n % 16

/-- The two hexadecimal digits of each byte of `bs`. -/
def hexEncode (bs : List Nat) : GoString :=
  bs.flatMap (fun b => [hexDigit (b / 16), hexDigit b])

/-- The function `uuid.NewString` of `github.com/google/uuid` on the random bytes
`random`: byte 6 gets version 4, byte 8 the RFC 4122 variant, and the 16 bytes are
written as `xxxxxxxx-xxxx-xxxx-xxxx-xxxxxxxxxxxx`. -/
def NewString (random : List Nat) : GoString :=
  let b (i : Nat) : Nat := random.getD i 0 % 256
  hexEncode [b 0, b 1, b 2, b 3] ++ [45] ++ hexEncode [b 4, b 5] ++ [45]
    ++ hexEncode [b 6 % 16 + 64, b 7] ++ [45] ++ hexEncode [b 8 % 64 + 128, b 9] ++ [45]
    ++ hexEncode [b 10, b 11, b 12, b 13, b 14, b 15]

/-- The loop of `strings.LastIndexByte`: the greatest index below `n` at which `s` has the
byte `c`, or -1. -/
def lastIndexLoop (s : GoString) (c : Nat) : Nat → Int
  | 0 => -1
  | n + 1 => if s[n]? = some c then (n : Int) else lastIndexLoop s c n

/-- The function `strings.LastIndexByte`. -/
def LastIndexByte (s : GoString) (c : Nat) : Int := lastIndexLoop s c s.length

/-- The loop `for _, to := range optTo` of `appendDest`, on the values still to visit and
the current value of `dests`. -/
def appendDest.loop (env : Env) : List GoString → List GoString → Except GoError (List GoString)
  | [], dests => .ok dests
  | t :: rest, dests =>
    match env.ParseAddress t with
    | .error err => .error (Errorf (lit "mail.ParseAddress(" ++ t ++ lit "): " ++ err.text))
    | .ok addr => appendDest.loop env rest (dests ++ [addr.Address])

/-- The closure `appendDest` of `run`, with the variable `dests` it appends to passed in
and out. The parameter `addrs` is not used by the body: the loop ranges over
`optTo`. -/
def appendDest (env : Env) (optTo : List GoString) (dests : List GoString)
    (_addrs : List GoString) : Except GoError (List GoString) :=
  appendDest.loop env optTo dests

/-- The closure `appendDestAndHeader` of `run`, with `dests` and the message `m` passed in
and out, and `optTo` the value of the package variable at the call. The third
result is the slice `addrs` after the call: `m.SetHeader(field, addrs...)` hands
over the slice itself, whose elements `SetHeader` rewrites. -/
def appendDestAndHeader (env : Env) (optTo : List GoString) (dests : List GoString)
    (m : GoMessage) (addrs : List GoString) (field : GoString) :
    Except GoError (List GoString × GoMessage × List GoString) :=
  match appendDest env optTo dests addrs with
  | .error err => .error err
  | .ok dests =>
    if addrs.length > 0 then
      let r := m.SetHeader field addrs
      .ok (dests, r.1, r.2)
    else .ok (dests, m, addrs)

/-- Lines 79-133 of `run`: the message and the destination list built from the flags and
the bytes `b` of the body file. The first call of `appendDestAndHeader` is given
`optTo` itself as `addrs`, so `optTo` holds the rewritten values from then on;
`SetHeader("From", *optFrom)` and the like pass a single string, which is
copied into a fresh slice. -/
def run.compose (f : Flags) (env : Env) (b : GoString) :
    Except GoError (GoMessage × List GoString) :=
  let m := NewMessage
  match env.ParseAddress f.optFrom with
  | .error err =>
    .error (Errorf (lit "mail.ParseAddress(" ++ f.optFrom ++ lit "): " ++ err.text))
  | .ok addr =>
    let m := (m.SetHeader (lit "From") [f.optFrom]).1
    let i := LastIndexByte addr.Address 64
    let fromDomain := addr.Address.drop (i + 1).toNat
    let m := if f.optSubject ≠ [] then (m.SetHeader (lit "Subject") [f.optSubject]).1 else m
    let optTo := f.optTo
    match appendDestAndHeader env optTo [] m optTo (lit "To") with
    | .error err => .error (Errorf (lit "To: " ++ err.text))
    | .ok (dests, m, optTo) =>
      match appendDestAndHeader env optTo dests m f.optCC (lit "Cc") with
      | .error err => .error (Errorf (lit "Cc: " ++ err.text))
      | .ok (dests, m, _) =>
        match appendDest env optTo dests f.optBCC with
        | .error err => .error (Errorf (lit "Bcc: " ++ err.text))
        | .ok dests =>
          let msgid :=
            if f.optMessageID = [] then
              lit "<" ++ NewString env.random ++ lit "@" ++ fromDomain ++ lit ">"
            else f.optMessageID
          let m := (m.SetHeader (lit "Message-ID") [msgid]).1
          let m := m.SetBody (lit "text/plain") b
          .ok (m, dests)

/-- Lines 135-159 of `run`: the preview on standard error, the configuration, the segment
with its deferred close, the send call and the output. -/
def run.send (f : Flags) (env : Env) (m : GoMessage) (dests : List GoString) :
    Option GoError × List Event :=
  let sb := env.WriteTo m
  match env.LoadDefaultConfig with
  | some err =>
    (some (Wrapf (lit "config.LoadDefaultConfig: ") err),
      [Event.StderrWrite sb, Event.LoadDefaultConfig env.AWS_REGION])
  | none =>
    let seg : Segment := ⟨env.myName, none, env.TraceID⟩
    let input : SendRawEmailInput :=
      { RawMessage := sb
        Destinations := dests
        ConfigurationSetName :=
          if f.optConfigurationSet ≠ [] then some f.optConfigurationSet else none }
    match env.SendRawEmail with
    | .error err =>
      let retErr := some (Errorf (lit "SendRawEmail: " ++ err.text))
      (retErr,
        [Event.StderrWrite sb, Event.LoadDefaultConfig env.AWS_REGION, Event.BeginSegment seg,
         Event.SendRawEmail input, Event.Close seg retErr])
    | .ok out =>
      let retErr := env.OutputAsYAML
      (retErr,
        [Event.StderrWrite sb, Event.LoadDefaultConfig env.AWS_REGION, Event.BeginSegment seg,
         Event.SendRawEmail input, Event.OutputAsYAML out, Event.Close seg retErr])

/-- The function `run`: the returned error and the calls made. -/
def run (f : Flags) (env : Env) : Option GoError × List Event :=
  if f.optBody = [] then (some (Errorf (lit "--body must be specified")), [])
  else if f.optFrom = [] then (some (Errorf (lit "--from must be specified")), [])
  else
    match env.ReadFile f.optBody with
    | .error err => (some err, [Event.ReadFile f.optBody])
    | .ok b =>
      match run.compose f env b with
      | .error err => (some err, [Event.ReadFile f.optBody])
      | .ok (m, dests) =>
        let r := run.send f env m dests
        (r.1, Event.ReadFile f.optBody :: r.2)

/-- The calls of a trace that go to the network: `config.LoadDefaultConfig` (which may
query the metadata and credential endpoints) and `SendRawEmail`. -/
def isNetworkCall : Event → Bool
  | .LoadDefaultConfig _ => true
  | .SendRawEmail _ => true
  | _ => false

/-- The addresses `mail.ParseAddress` extracts from the values it accepts among `vs`. -/
def parsed (env : Env) (vs : List GoString) : List GoString :=
  vs.filterMap
    (fun v => match env.ParseAddress v with
      | .ok addr => some addr.Address
      | .error _ => none)

/-- Whether `mail.ParseAddress` accepts the value `v`. -/
def accepts (env : Env) (v : GoString) : Bool :=
  match env.ParseAddress v with
  | .ok _ => true
  | .error _ => false

/-- A sample environment: the parser accepts exactly the values with an `@` that is
neither first nor last and takes them as the address, the body file reads as
`hello`, and every call succeeds. -/
def sampleEnv : Env where
  myName := lit "ses-send-raw-email"
  ReadFile := fun _ => .ok (lit "hello")
  ParseAddress := fun v =>
    if 64 ∈ v.tail.dropLast then .ok ⟨[], v⟩
    else .error (Errorf (lit "mail: missing '@' or angle-addr"))
  random := [1, 35, 69, 103, 137, 171, 205, 239, 1, 35, 69, 103, 137, 171, 205, 239]
  WriteTo := fun m => (m.header.map (fun h => h.1)).flatten
  AWS_REGION := lit "us-east-1"
  LoadDefaultConfig := none
  TraceID := lit "1-5759e988-bd862e3fe1be46a994272793"
  SendRawEmail := .ok ⟨some (lit "0100")⟩
  OutputAsYAML := none

/-- Sample flags: one well-formed `--to` value and one malformed `--cc` value. -/
def sampleFlags : Flags where
  optTo := [lit "a@example.com"]
  optCC := [lit "bad"]
  optBCC := []
  optBody := lit "body.txt"
  optFrom := lit "me@example.org"
  optSubject := lit "hi"
  optMessageID := []
  optConfigurationSet := []

/-- The `Destinations` of the `SendRawEmail` calls of a trace, in order. -/
def destinations : List Event → List (List GoString)
  | [] => []
  | Event.SendRawEmail input :: rest => input.Destinations :: destinations rest
  | _ :: rest => destinations rest

/-- Sample flags: the one `--to` value is `jörg@example.com`, with `ö` as the two bytes
`C3 B6`. -/
def umlautFlags : Flags where
  optTo := [[0x6A, 0xC3, 0xB6] ++ lit "rg@example.com"]
  optCC := []
  optBCC := []
  optBody := lit "body.txt"
  optFrom := lit "me@example.org"
  optSubject := lit "hi"
  optMessageID := []
  optConfigurationSet := []

/-- Sample flags: the `--from` value is `micro@µ.example.com`, with `µ` as the two bytes
`C2 B5`. -/
def microFlags : Flags where
  optTo := [lit "a@example.com"]
  optCC := []
  optBCC := []
  optBody := lit "body.txt"
  optFrom := lit "micro@" ++ [0xC2, 0xB5] ++ lit ".example.com"
  optSubject := []
  optMessageID := []
  optConfigurationSet := []

end SesSendRawEmail

/-! ## Level names: letter-casings and `strings.ToLower` -/

theorem xrayLogLevelText_eq (caseRanges : Nat → Nat) :
    xrayLogLevelText caseRanges = levelNames := by
  rfl

theorem casingOf_ascii : ∀ (w s : GoString), casingOf w s = true →
    (∀ c ∈ w, c < 0x80) → s.all (fun c => decide (c < 0x80)) = true := by
  intro w
  induction w with
  | nil =>
    intro s h _
    cases s with
    | nil => rfl
    | cons d s => simp [casingOf] at h
  | cons c w ih =>
    intro s h hw
    cases s with
    | nil => simp [casingOf] at h
    | cons d s =>
      simp only [casingOf, Bool.and_eq_true] at h
      have hc : c < 0x80 := hw c (by simp)
      have hs := ih s h.2 (fun x hx => hw x (by simp [hx]))
      have hd : d < 0x80 := by
        have h1 := h.1
        simp only [sameLetter, Bool.or_eq_true, Bool.and_eq_true, beq_iff_eq, decide_eq_true_eq] at h1
        omega
      simp only [List.all_cons, Bool.and_eq_true, decide_eq_true_eq]
      exact ⟨hd, hs⟩

theorem casingOf_lower : ∀ (w s : GoString), casingOf w s = true →
    (∀ c ∈ w, asciiLower c = c) → s.map asciiLower = w := by
  intro w
  induction w with
  | nil =>
    intro s h _
    cases s with
    | nil => rfl
    | cons d s => simp [casingOf] at h
  | cons c w ih =>
    intro s h hw
    cases s with
    | nil => simp [casingOf] at h
    | cons d s =>
      simp only [casingOf, Bool.and_eq_true] at h
      have hc : asciiLower c = c := hw c (by simp)
      have hs := ih s h.2 (fun x hx => hw x (by simp [hx]))
      have hd : asciiLower d = c := by
        have h1 := h.1
        simp only [sameLetter, Bool.or_eq_true, Bool.and_eq_true, beq_iff_eq, decide_eq_true_eq] at h1
        rcases h1 with h1 | h1
        · rw [h1]; exact hc
        · unfold asciiLower
          rw [if_pos (by omega)]
          omega
      simp only [List.map_cons, hd, hs]

theorem casingOf_map_asciiLower : ∀ s : GoString, casingOf (s.map asciiLower) s = true := by
  intro s
  induction s with
  | nil => rfl
  | cons d s ih =>
    simp only [List.map_cons, casingOf, Bool.and_eq_true, ih, and_true]
    simp only [sameLetter, Bool.or_eq_true, Bool.and_eq_true, beq_iff_eq, decide_eq_true_eq]
    unfold asciiLower
    split <;> omega

theorem toLower_of_casing (caseRanges : Nat → Nat) (w s : GoString)
    (h : casingOf w s = true) (hascii : ∀ c ∈ w, c < 0x80)
    (hlow : ∀ c ∈ w, asciiLower c = c) : ToLower caseRanges s = w := by
  unfold ToLower
  rw [if_pos (casingOf_ascii w s h hascii)]
  exact casingOf_lower w s h hlow

theorem levelNames_get_none (s : GoString) (h : ∀ p ∈ levelNames, s ≠ p.1) :
    GoMap.get levelNames s = none := by
  have h1 := h (lit "debug", LogLevelDebug) (by simp [levelNames])
  have h2 := h (lit "info", LogLevelInfo) (by simp [levelNames])
  have h3 := h (lit "warn", LogLevelWarn) (by simp [levelNames])
  have h4 := h (lit "error", LogLevelError) (by simp [levelNames])
  simp only [levelNames, GoMap.get]
  rw [if_neg (Ne.symm h1), if_neg (Ne.symm h2), if_neg (Ne.symm h3), if_neg (Ne.symm h4)]

/-- C7: for every byte string that is one of `debug`, `info`, `warn`, `error` in some
letter-casing, `UnmarshalText` returns nil and leaves the receiver at the
level of that name, and `MarshalText` of that level returns the lower-case name
with a nil error. -/
theorem unmarshalText_casing_roundtrip (caseRanges : Nat → Nat) (l : XrayLogLevel)
    (name : GoString) (level : LogLevel) (b : GoString)
    (hname : (name, level) ∈ levelNames) (hb : casingOf name b = true) :
    XrayLogLevel.UnmarshalText caseRanges l b = (level, none) ∧
      XrayLogLevel.MarshalText caseRanges (XrayLogLevel.UnmarshalText caseRanges l b).1
        = (name, none) := by
  have hall : ∀ p ∈ levelNames, ∀ c ∈ p.1, c < 0x80 ∧ asciiLower c = c := by decide
  have hlower : ToLower caseRanges b = name :=
    toLower_of_casing caseRanges name b hb
      (fun c hc => (hall (name, level) hname c hc).1)
      (fun c hc => (hall (name, level) hname c hc).2)
  have hget : GoMap.get levelNames name = some level := by
    simp only [levelNames, List.mem_cons, Prod.mk.injEq, List.mem_singleton,
      List.not_mem_nil, or_false] at hname
    rcases hname with ⟨h, h'⟩ | ⟨h, h'⟩ | ⟨h, h'⟩ | ⟨h, h'⟩ <;> subst h <;> subst h' <;> rfl
  have hu : XrayLogLevel.UnmarshalText caseRanges l b = (level, none) := by
    simp only [XrayLogLevel.UnmarshalText, hlower, xrayLogLevelText_eq, hget]
  refine ⟨hu, ?_⟩
  rw [hu]
  simp only [levelNames, List.mem_cons, Prod.mk.injEq, List.mem_singleton,
    List.not_mem_nil, or_false] at hname
  rcases hname with ⟨h, h'⟩ | ⟨h, h'⟩ | ⟨h, h'⟩ | ⟨h, h'⟩ <;> subst h <;> subst h' <;> rfl

/-- Witness of C7 at the bytes of `WaRn`. -/
theorem unmarshalText_casing_roundtrip_witness :
    (lit "warn", LogLevelWarn) ∈ levelNames ∧ casingOf (lit "warn") (lit "WaRn") = true ∧
      XrayLogLevel.UnmarshalText caseRangesIntoASCII XrayLogLevelError (lit "WaRn")
        = (LogLevelWarn, none) ∧
      XrayLogLevel.MarshalText caseRangesIntoASCII
          (XrayLogLevel.UnmarshalText caseRangesIntoASCII XrayLogLevelError (lit "WaRn")).1
        = (lit "warn", none) :=
  ⟨by decide, by decide,
    unmarshalText_casing_roundtrip caseRangesIntoASCII XrayLogLevelError (lit "warn")
      LogLevelWarn (lit "WaRn") (by decide) (by decide)⟩

/-- C8, refuted as stated: the five bytes `C4 B0 6E 66 6F` (the text `İnfo`, whose first
letter is U+0130) are a letter-casing of none of the four names, yet
`UnmarshalText` returns nil on them and sets the receiver, which held `error`,
to `info`. -/
theorem unmarshalText_accepts_dotted_I :
    (∀ p ∈ levelNames, casingOf p.1 [0xC4, 0xB0, 0x6E, 0x66, 0x6F] = false) ∧
      XrayLogLevel.UnmarshalText caseRangesIntoASCII XrayLogLevelError
          [0xC4, 0xB0, 0x6E, 0x66, 0x6F]
        = (XrayLogLevelInfo, none) := by
  decide

/-- C8, amended: whenever the `strings.ToLower` form of the input is none of the four
names, and in particular whenever the input is made of ASCII bytes only and is a
letter-casing of none of them, `UnmarshalText` returns the error
`unknown log level: ` followed by that lower-cased form and leaves the level of
the receiver as it was. -/
theorem unmarshalText_unknown (caseRanges : Nat → Nat) (l : XrayLogLevel) (b : GoString)
    (h : (∀ p ∈ levelNames, ToLower caseRanges b ≠ p.1) ∨
      (b.all (fun c => decide (c < 0x80)) = true ∧ ∀ p ∈ levelNames, casingOf p.1 b = false)) :
    XrayLogLevel.UnmarshalText caseRanges l b
      = (l, some (Errorf (lit "unknown log level: " ++ ToLower caseRanges b))) := by
  have hne : ∀ p ∈ levelNames, ToLower caseRanges b ≠ p.1 := by
    rcases h with h | ⟨hascii, hcase⟩
    · exact h
    · intro p hp heq
      have hc := casingOf_map_asciiLower b
      have hl : ToLower caseRanges b = b.map asciiLower := by
        unfold ToLower
        rw [if_pos hascii]
      rw [← hl, heq, hcase p hp] at hc
      exact Bool.noConfusion hc
  simp only [XrayLogLevel.UnmarshalText, xrayLogLevelText_eq,
    levelNames_get_none (ToLower caseRanges b) hne]

/-- Witness of the amended C8 at the bytes of `Trace`. -/
theorem unmarshalText_unknown_witness :
    XrayLogLevel.UnmarshalText caseRangesIntoASCII XrayLogLevelWarn (lit "Trace")
      = (XrayLogLevelWarn,
          some (Errorf (lit "unknown log level: " ++ ToLower caseRangesIntoASCII (lit "Trace")))) :=
  unmarshalText_unknown caseRangesIntoASCII XrayLogLevelWarn (lit "Trace")
    (Or.inr ⟨by decide, by decide⟩)

/-! ## The logger adapter -/

/-- The option struct after the options `WithXrayFixLogLevel F`, for `F` in `Fs`, have been
applied in order: the last of them wins, and with none the struct is as it
was. -/
theorem foldl_withXrayFixLogLevel (Fs : List XrayLogLevel) :
    ∀ o : xrayZapLoggerOption,
      ((Fs.map WithXrayFixLogLevel).foldl (fun o f => f o) o).fixLogLevel
        = Fs.getLast?.getD o.fixLogLevel := by
  induction Fs with
  | nil => intro o; rfl
  | cons F rest ih =>
    intro o
    rw [List.map_cons, List.foldl_cons, ih]
    cases rest with
    | nil => rfl
    | cons G rest =>
      rw [List.getLast?_cons_cons, List.getLast?_eq_getLast (G :: rest) (by simp)]
      rfl

/-- The closure `chooseLogFunc` on a named level: the record goes to the given logger at
the severity of the same name. -/
theorem chooseLogFunc_named (lg : SugaredLogger) (lv : LogLevel) (msg : GoString)
    (h : lv ∈ namedLevels) :
    ∃ z, chooseLogFunc lg lv msg = ⟨lg, z, msg⟩ ∧ z.CapitalString = LogLevel.String lv := by
  simp only [namedLevels, List.mem_cons, List.mem_singleton, List.not_mem_nil, or_false] at h
  rcases h with h | h | h | h <;> subst h
  · exact ⟨ZapLevel.Debug, rfl, by decide⟩
  · exact ⟨ZapLevel.Info, rfl, by decide⟩
  · exact ⟨ZapLevel.Warn, rfl, by decide⟩
  · exact ⟨ZapLevel.Error, rfl, by decide⟩

/-- C9: for a logger built by `NewXrayZapLogger` with threshold `T` and any list of
options `WithXrayFixLogLevel F` with named levels `F`, and a call `Log(level,
msg)` with a named level: nothing is forwarded when `level < T`, and exactly one
record, with the text of the message, when `level >= T`. With no option the
record goes to the wrapped logger at the severity named like `level`. With
options, `F` being the one that counts (the last), the record goes to the
wrapped logger extended with the field `originalLevel` holding `level`, at the
severity named like `F`, whatever `level` is. -/
theorem log_forwards_named_levels (sl : SugaredLogger) (T level : LogLevel) (msg : GoString)
    (Fs : List XrayLogLevel) (hlevel : level ∈ namedLevels)
    (hFs : ∀ F ∈ Fs, F ∈ namedLevels) :
    (level < T →
      (NewXrayZapLogger sl T (Fs.map WithXrayFixLogLevel)).Log level msg = []) ∧
    (T ≤ level →
      (Fs = [] →
        ∃ z, (NewXrayZapLogger sl T (Fs.map WithXrayFixLogLevel)).Log level msg
            = [⟨sl, z, msg⟩] ∧
          z.CapitalString = LogLevel.String level) ∧
      (∀ F, Fs.getLast? = some F →
        ∃ z, (NewXrayZapLogger sl T (Fs.map WithXrayFixLogLevel)).Log level msg
            = [⟨sl.With [ZapField.Any (lit "originalLevel") level], z, msg⟩] ∧
          z.CapitalString = LogLevel.String F)) := by
  have hfix : (NewXrayZapLogger sl T (Fs.map WithXrayFixLogLevel)).fixLogLevel
      = Fs.getLast?.getD 0 := by
    simp only [NewXrayZapLogger]
    exact foldl_withXrayFixLogLevel Fs ⟨0⟩
  refine ⟨fun hlt => ?_, fun hle => ⟨fun hnil => ?_, fun F hF => ?_⟩⟩
  · have hnot : ¬ level ≥ T := not_le.mpr hlt
    simp only [xrayZapLogger.Log]
    rw [if_neg (by simpa [NewXrayZapLogger] using hnot)]
  · subst hnil
    obtain ⟨z, hz, hname⟩ := chooseLogFunc_named sl level msg hlevel
    refine ⟨z, ?_, hname⟩
    simp [xrayZapLogger.Log, NewXrayZapLogger, hle, hz]
  · have hmem : F ∈ namedLevels := hFs F (List.mem_of_getLast?_eq_some hF)
    have hne : F ≠ 0 := by
      intro h0
      subst h0
      exact absurd hmem (by decide)
    obtain ⟨z, hz, hname⟩ :=
      chooseLogFunc_named (sl.With [ZapField.Any (lit "originalLevel") level]) F msg hmem
    refine ⟨z, ?_, hname⟩
    rw [hF, Option.getD_some] at hfix
    have hT : (NewXrayZapLogger sl T (Fs.map WithXrayFixLogLevel)).level = T := rfl
    have hl : (NewXrayZapLogger sl T (Fs.map WithXrayFixLogLevel)).logger = sl := rfl
    simp only [xrayZapLogger.Log, hfix, hT, hl, XrayLogLevel.Value, hne, if_false]
    rw [if_pos (by simpa using hle), hz]

/-- Witness of C9: threshold `info`, the options `WithXrayFixLogLevel` of `warn` and then
of `info`, a message of level `error`. -/
theorem log_forwards_named_levels_witness :
    LogLevelError ∈ namedLevels ∧ LogLevelInfo ≤ LogLevelError ∧
      (NewXrayZapLogger ⟨false, []⟩ LogLevelInfo
          ([XrayLogLevelWarn, XrayLogLevelInfo].map WithXrayFixLogLevel)).Log
          LogLevelError (lit "m")
        = [⟨⟨false, [ZapField.Any (lit "originalLevel") LogLevelError]⟩, ZapLevel.Info, lit "m"⟩] := by
  have h := (log_forwards_named_levels ⟨false, []⟩ LogLevelInfo LogLevelError (lit "m")
    [XrayLogLevelWarn, XrayLogLevelInfo] (by decide) (by decide)).2 (by decide)
  refine ⟨by decide, by decide, ?_⟩
  obtain ⟨z, hz, h1⟩ := h.2 XrayLogLevelInfo rfl
  have hzi : z = ZapLevel.Info := by
    cases z <;> first | rfl | exact absurd h1 (by decide)
  rw [hz, hzi]
  rfl

/-! ## The queue poller -/

namespace SqsSubscribe

theorem deletes_append (a b : List Event) : deletes (a ++ b) = deletes a ++ deletes b := by
  induction a with
  | nil => rfl
  | cons e a ih => cases e <;> simp [deletes, ih]

theorem receives_append (a b : List Event) : receives (a ++ b) = receives a ++ receives b := by
  induction a with
  | nil => rfl
  | cons e a ih => cases e <;> simp [receives, ih]

/-- On a message whose two pointers are set, `OnMessage` returns the error of the delete
call, and its trace holds that one delete call and no receive call. -/
theorem onMessage_of_ids (cfg : Config) (e : MessageEnv) (ctx : Context) (msg : Message)
    (hid : msg.MessageId ≠ none) (hh : msg.ReceiptHandle ≠ none) :
    (OnMessage cfg e ctx msg).1 = .returned e.DeleteMessage ∧
      deletes (OnMessage cfg e ctx msg).2 = [deleteInput cfg msg] ∧
      receives (OnMessage cfg e ctx msg).2 = [] := by
  obtain ⟨id, hid⟩ := Option.ne_none_iff_exists'.mp hid
  obtain ⟨h, hh⟩ := Option.ne_none_iff_exists'.mp hh
  unfold OnMessage
  simp only [hid]
  cases hth : GoMap.get msg.Attributes (lit "AWSTraceHeader") with
  | none => simp [OnMessage.delete, hh, deletes, receives, deleteInput]
  | some th => simp [OnMessage.delete, hh, deletes, receives, deleteInput]

/-- When every message has its pointers set and every delete call succeeds, the loop over
the messages handles all of them and returns nil. -/
theorem messages_all_deleted (cfg : Config) (e : Nat → MessageEnv) (ctx : Context) :
    ∀ (msgs : List Message) (j : Nat),
      (∀ m ∈ msgs, m.MessageId ≠ none ∧ m.ReceiptHandle ≠ none) →
      (∀ i < msgs.length, (e (j + i)).DeleteMessage = none) →
      Polling.messages cfg e ctx j msgs = (.returned none, handled cfg e ctx j msgs) := by
  intro msgs
  induction msgs with
  | nil => intro j _ _; rfl
  | cons m rest ih =>
    intro j hids hdel
    have hm := hids m (by simp)
    have h0 : (e j).DeleteMessage = none := by simpa using hdel 0 (by simp)
    have hon := (onMessage_of_ids cfg (e j) ctx m hm.1 hm.2).1
    rw [h0] at hon
    have hrest := ih (j + 1) (fun x hx => hids x (by simp [hx]))
      (fun i hi => by
        have := hdel (i + 1) (by simpa using hi)
        rwa [show j + (i + 1) = j + 1 + i by omega] at this)
    have hpair : OnMessage cfg (e j) ctx m = (.returned none, (OnMessage cfg (e j) ctx m).2) := by
      rw [← hon]
    simp only [Polling.messages, handled]
    rw [hpair]
    simp only [hrest]

/-- When the messages before `mi` have their pointers set and are deleted, and the delete
call for `mi` fails, the loop stops after `mi` and returns that error. -/
theorem messages_delete_fails (cfg : Config) (e : Nat → MessageEnv) (ctx : Context)
    (mi : Message) (post : List Message) (err : GoError) :
    ∀ (pre : List Message) (j : Nat),
      (∀ m ∈ pre, m.MessageId ≠ none ∧ m.ReceiptHandle ≠ none) →
      (∀ i < pre.length, (e (j + i)).DeleteMessage = none) →
      mi.MessageId ≠ none → mi.ReceiptHandle ≠ none →
      (e (j + pre.length)).DeleteMessage = some err →
      Polling.messages cfg e ctx j (pre ++ mi :: post)
        = (.returned (some err), handled cfg e ctx j (pre ++ [mi])) := by
  intro pre
  induction pre with
  | nil =>
    intro j _ _ hid hh hfail
    have hon := (onMessage_of_ids cfg (e j) ctx mi hid hh).1
    simp only [List.length_nil, Nat.add_zero] at hfail
    rw [hfail] at hon
    have hpair : OnMessage cfg (e j) ctx mi
        = (.returned (some err), (OnMessage cfg (e j) ctx mi).2) := by
      rw [← hon]
    simp only [List.nil_append, Polling.messages, handled, List.append_nil]
    rw [hpair]
  | cons m rest ih =>
    intro j hids hdel hid hh hfail
    have hm := hids m (by simp)
    have h0 : (e j).DeleteMessage = none := by simpa using hdel 0 (by simp)
    have hon := (onMessage_of_ids cfg (e j) ctx m hm.1 hm.2).1
    rw [h0] at hon
    have hrest := ih (j + 1) (fun x hx => hids x (by simp [hx]))
      (fun i hi => by
        have := hdel (i + 1) (by simpa using hi)
        rwa [show j + (i + 1) = j + 1 + i by omega] at this)
      hid hh (by
        rwa [show j + 1 + rest.length = j + (m :: rest).length by simp; omega])
    have hpair : OnMessage cfg (e j) ctx m = (.returned none, (OnMessage cfg (e j) ctx m).2) := by
      rw [← hon]
    rw [List.cons_append, List.cons_append]
    simp only [Polling.messages, handled]
    rw [hpair]
    simp only [hrest]

/-- The delete and receive calls in the traces of `OnMessage` on messages with their
pointers set: one delete call per message, in order, and no receive call. -/
theorem handled_calls (cfg : Config) (e : Nat → MessageEnv) (ctx : Context) :
    ∀ (msgs : List Message) (j : Nat),
      (∀ m ∈ msgs, m.MessageId ≠ none ∧ m.ReceiptHandle ≠ none) →
      deletes (handled cfg e ctx j msgs) = msgs.map (deleteInput cfg) ∧
        receives (handled cfg e ctx j msgs) = [] := by
  intro msgs
  induction msgs with
  | nil => intro j _; exact ⟨rfl, rfl⟩
  | cons m rest ih =>
    intro j hids
    have hm := hids m (by simp)
    have hon := onMessage_of_ids cfg (e j) ctx m hm.1 hm.2
    have hrest := ih (j + 1) (fun x hx => hids x (by simp [hx]))
    simp only [handled, deletes_append, receives_append, hon.2.1, hon.2.2, hrest.1, hrest.2,
      List.map_cons, List.singleton_append, List.append_nil, and_self]

/-- The loop of `Polling` passes through `k` turns that return nil and ends with the
first turn that does not. -/
theorem loop_reaches (cfg : Config) (env : Nat → IterEnv) (ctx : Context)
    (logger : SugaredLogger) (o : Outcome) (ho : o ≠ .returned none) :
    ∀ (k i fuel : Nat),
      (∀ n < k, (Polling.iteration cfg (env (i + n)) ctx logger).1 = .returned none) →
      (Polling.iteration cfg (env (i + k)) ctx logger).1 = o →
      k < fuel →
      Polling.loop cfg env ctx logger fuel i
        = some (o, turns cfg env ctx logger i k
            ++ (Polling.iteration cfg (env (i + k)) ctx logger).2) := by
  intro k
  induction k with
  | zero =>
    intro i fuel _ hk hfuel
    obtain ⟨fuel, rfl⟩ : ∃ f, fuel = f + 1 := ⟨fuel - 1, by omega⟩
    simp only [Nat.add_zero] at hk
    have hpair : Polling.iteration cfg (env i) ctx logger
        = (o, (Polling.iteration cfg (env i) ctx logger).2) := by rw [← hk]
    simp only [Polling.loop, turns, List.nil_append, Nat.add_zero]
    rw [hpair]
    cases o with
    | panicked => rfl
    | returned err =>
      cases err with
      | none => exact absurd rfl ho
      | some e => rfl
  | succ k ih =>
    intro i fuel hprev hk hfuel
    obtain ⟨fuel, rfl⟩ : ∃ f, fuel = f + 1 := ⟨fuel - 1, by omega⟩
    have h0 : (Polling.iteration cfg (env i) ctx logger).1 = .returned none := by
      simpa using hprev 0 (by omega)
    have hpair : Polling.iteration cfg (env i) ctx logger
        = (.returned none, (Polling.iteration cfg (env i) ctx logger).2) := by rw [← h0]
    have hrest := ih (i + 1) fuel
      (fun n hn => by
        have := hprev (n + 1) (by omega)
        rwa [show i + (n + 1) = i + 1 + n by omega] at this)
      (by rwa [show i + 1 + k = i + (k + 1) by omega])
      (by omega)
    rw [show i + 1 + k = i + (k + 1) by omega] at hrest
    simp only [Polling.loop, turns]
    rw [hpair]
    simp only [hrest, Option.map_some', List.append_assoc]


/-- A turn whose receive call fails returns that error after the receive call alone. -/
theorem iteration_receive_error (cfg : Config) (e : IterEnv) (ctx : Context)
    (logger : SugaredLogger) (err : GoError) (hrecv : e.ReceiveMessage = .error err) :
    Polling.iteration cfg e ctx logger
      = (.returned (some err),
          [Event.BeginSegment (pollingSegment cfg e),
           Event.ReceiveMessage { ctx with segment := some (pollingSegment cfg e) }
             (receiveInput cfg),
           Event.Close (pollingSegment cfg e) (Polling.closeErr (some err) e.parentErr)]) := by
  simp [Polling.iteration, Polling.body, hrecv, pollingSegment, Outcome.retErr]

/-- A turn that receives `out`, writes it and deletes every message returns nil. -/
theorem iteration_all_deleted (cfg : Config) (e : IterEnv) (ctx : Context)
    (logger : SugaredLogger) (out : ReceiveMessageOutput)
    (hrecv : e.ReceiveMessage = .ok out) (hyaml : e.OutputAsYAML = none)
    (hids : ∀ m ∈ out.Messages, m.MessageId ≠ none ∧ m.ReceiptHandle ≠ none)
    (hdel : ∀ j < out.Messages.length, (e.onMessage j).DeleteMessage = none) :
    Polling.iteration cfg e ctx logger
      = (.returned none, turnTrace cfg e ctx logger out out.Messages none) := by
  have hm := messages_all_deleted cfg e.onMessage
    (ToContext { ctx with segment := some (pollingSegment cfg e) } logger) out.Messages 0 hids
    (fun i hi => by simpa using hdel i hi)
  simp only [pollingSegment] at hm
  simp [Polling.iteration, Polling.body, hrecv, hyaml, hm, turnTrace, pollingSegment,
    Outcome.retErr, Polling.closeErr, isContextCanceled]

/-- A turn in which the delete call for `mi` is the first to fail returns that error once
`mi` is handled. -/
theorem iteration_delete_fails (cfg : Config) (e : IterEnv) (ctx : Context)
    (logger : SugaredLogger) (out : ReceiveMessageOutput) (pre post : List Message)
    (mi : Message) (err : GoError)
    (hrecv : e.ReceiveMessage = .ok out) (hyaml : e.OutputAsYAML = none)
    (hmsgs : out.Messages = pre ++ mi :: post)
    (hids : ∀ m ∈ pre, m.MessageId ≠ none ∧ m.ReceiptHandle ≠ none)
    (hdel : ∀ j < pre.length, (e.onMessage j).DeleteMessage = none)
    (hid : mi.MessageId ≠ none) (hh : mi.ReceiptHandle ≠ none)
    (hfail : (e.onMessage pre.length).DeleteMessage = some err) :
    Polling.iteration cfg e ctx logger
      = (.returned (some err),
          turnTrace cfg e ctx logger out (pre ++ [mi])
            (Polling.closeErr (some err) e.parentErr)) := by
  have hm := messages_delete_fails cfg e.onMessage
    (ToContext { ctx with segment := some (pollingSegment cfg e) } logger) mi post err pre 0 hids
    (fun i hi => by simpa using hdel i hi) hid hh (by simpa using hfail)
  simp only [pollingSegment] at hm
  simp [Polling.iteration, Polling.body, hrecv, hyaml, hmsgs, hm, turnTrace, pollingSegment,
    Outcome.retErr]

/-- The delete and receive calls of the trace of a turn. -/
theorem turnTrace_calls (cfg : Config) (e : IterEnv) (ctx : Context) (logger : SugaredLogger)
    (out : ReceiveMessageOutput) (done : List Message) (err : Option GoError)
    (hids : ∀ m ∈ done, m.MessageId ≠ none ∧ m.ReceiptHandle ≠ none) :
    deletes (turnTrace cfg e ctx logger out done err) = done.map (deleteInput cfg) ∧
      receives (turnTrace cfg e ctx logger out done err) = [receiveInput cfg] := by
  have h := handled_calls cfg e.onMessage
    (ToContext { ctx with segment := some (pollingSegment cfg e) } logger) done 0 hids
  simp [turnTrace, deletes_append, receives_append, deletes, receives, h.1, h.2]

/-- C2, refuted as stated: the receive call of the first turn is answered with the
cancellation error and the parent context is cancelled, and `Polling` returns
that error, not nil. -/
theorem polling_returns_cancellation_when_parent_canceled :
    (match canceledTurn.ReceiveMessage with
      | .error err => err = Canceled
      | .ok _ => False) ∧
      isContextCanceled canceledTurn.parentErr = true ∧
      Polling sampleConfig (fun _ => canceledTurn) ⟨none, none⟩ 1
        = some (.returned (some Canceled),
            [pollingBanner sampleConfig ⟨none, none⟩,
             Event.BeginSegment (pollingSegment sampleConfig canceledTurn),
             Event.ReceiveMessage ⟨none, some (pollingSegment sampleConfig canceledTurn)⟩
               (receiveInput sampleConfig),
             Event.Close (pollingSegment sampleConfig canceledTurn) none]) := by
  refine ⟨rfl, rfl, ?_⟩
  decide

/-- C2, amended: when turns `0` to `k - 1` of the loop returned nil and the receive call of
turn `k` is answered with an error `err` that is a cancellation, `Polling`
returns `err`, whether the parent context is cancelled or not. The parent
context decides what the segment of the turn is closed with: nil when it is
cancelled, `err` when it is not. It decides likewise how `main` ends on `err`:
by a plain return when its context is cancelled, by `Fatalf` when it is not. -/
theorem polling_receive_canceled (cfg : Config) (env : Nat → IterEnv) (ctx : Context)
    (k fuel : Nat) (err : GoError)
    (hprev : ∀ n < k, (Polling.iteration cfg (env n) ctx (Extract ctx)).1 = .returned none)
    (hrecv : (env k).ReceiveMessage = .error err) (hcan : err.isCanceled = true)
    (hfuel : k < fuel) :
    Polling cfg env ctx fuel
        = some (.returned (some err),
            pollingBanner cfg ctx :: (turns cfg env ctx (Extract ctx) 0 k ++
              [Event.BeginSegment (pollingSegment cfg (env k)),
               Event.ReceiveMessage { ctx with segment := some (pollingSegment cfg (env k)) }
                 (receiveInput cfg),
               Event.Close (pollingSegment cfg (env k))
                 (if isContextCanceled (env k).parentErr then none else some err)])) ∧
      (∀ ctxErr : Option GoError,
        mainExit (some err) ctxErr
          = if isContextCanceled ctxErr then Exit.clean else Exit.fatal err.text) := by
  have hit := iteration_receive_error cfg (env k) ctx (Extract ctx) err hrecv
  have hloop := loop_reaches cfg env ctx (Extract ctx) (.returned (some err)) (by simp) k 0 fuel
    (fun n hn => by simpa using hprev n hn) (by simp [hit]) hfuel
  constructor
  · simp only [Polling, hloop, Option.map_some', pollingBanner]
    simp [hit, Polling.closeErr, isContextCanceled, hcan]
  · intro ctxErr
    simp [mainExit, isContextCanceled, hcan]

/-- Witness of the amended C2: a turn that handles two messages, then a turn whose
receive call is cancelled. -/
theorem polling_receive_canceled_witness :
    (Polling sampleConfig (fun n => if n = 0 then goodTurn else canceledTurn) ⟨none, none⟩ 2).map
        Prod.fst
      = some (.returned (some Canceled)) := by
  rw [(polling_receive_canceled sampleConfig (fun n => if n = 0 then goodTurn else canceledTurn)
    ⟨none, none⟩ 1 2 Canceled
    (by intro n hn; obtain rfl : n = 0 := by omega
        decide)
    rfl rfl (by decide)).1]
  rfl

/-- C3, refuted as stated: two messages with their pointers set are received and every
delete call would succeed, but writing the response to standard output fails;
the turn returns that error with no delete call made. -/
theorem iteration_output_error_skips_messages :
    (match yamlFailTurn.ReceiveMessage with
      | .ok out => out.Messages = [sampleMessage, sampleMessage2]
      | .error _ => False) ∧
      (∀ j < 2, (yamlFailTurn.onMessage j).DeleteMessage = none) ∧
      (Polling.iteration sampleConfig yamlFailTurn ⟨none, none⟩ nop).1
        = .returned (some (Errorf (lit "write /dev/stdout: file already closed"))) ∧
      deletes (Polling.iteration sampleConfig yamlFailTurn ⟨none, none⟩ nop).2 = [] := by
  refine ⟨rfl, ?_, ?_, ?_⟩
  · intro j _; rfl
  · decide
  · decide

/-- C3, amended: when the receive call of turn `i` succeeds with messages that all have
their `MessageId` and `ReceiptHandle` set, the response is written to standard
output without error, and every delete call succeeds, the turn returns nil
and its trace is: the receive call, the output, then the trace of `OnMessage`
on each message in receive order, then the close of the segment. Its delete
calls are one per message, in receive order, each with the queue URL and the
receipt handle of its message; its only receive call is the first one, and
the loop goes on to turn `i + 1` after this trace. -/
theorem iteration_handles_batch (cfg : Config) (env : Nat → IterEnv) (ctx : Context)
    (logger : SugaredLogger) (i : Nat) (out : ReceiveMessageOutput)
    (hrecv : (env i).ReceiveMessage = .ok out) (hyaml : (env i).OutputAsYAML = none)
    (hids : ∀ m ∈ out.Messages, m.MessageId ≠ none ∧ m.ReceiptHandle ≠ none)
    (hdel : ∀ j < out.Messages.length, ((env i).onMessage j).DeleteMessage = none) :
    Polling.iteration cfg (env i) ctx logger
        = (.returned none, turnTrace cfg (env i) ctx logger out out.Messages none) ∧
      deletes (turnTrace cfg (env i) ctx logger out out.Messages none)
        = out.Messages.map (fun m => ⟨cfg.optQueueURL, m.ReceiptHandle⟩) ∧
      receives (turnTrace cfg (env i) ctx logger out out.Messages none) = [receiveInput cfg] ∧
      (∀ fuel : Nat,
        Polling.loop cfg env ctx logger (fuel + 1) i
          = (Polling.loop cfg env ctx logger fuel (i + 1)).map
              (fun r => (r.1, turnTrace cfg (env i) ctx logger out out.Messages none ++ r.2))) := by
  have hit := iteration_all_deleted cfg (env i) ctx logger out hrecv hyaml hids hdel
  have hcalls := turnTrace_calls cfg (env i) ctx logger out out.Messages none hids
  refine ⟨hit, ?_, hcalls.2, ?_⟩
  · rw [hcalls.1]
    rfl
  · intro fuel
    simp only [Polling.loop, hit]

/-- Witness of the amended C3 on a turn with two messages. -/
theorem iteration_handles_batch_witness :
    deletes (Polling.iteration sampleConfig goodTurn ⟨none, none⟩ nop).2
      = [⟨lit "https://sqs.example/q", some (lit "h1")⟩,
         ⟨lit "https://sqs.example/q", some (lit "h2")⟩] := by
  have h := iteration_handles_batch sampleConfig (fun _ => goodTurn) ⟨none, none⟩ nop 0
    ⟨[sampleMessage, sampleMessage2]⟩ rfl rfl (by decide) (by intro j _; rfl)
  rw [h.1, h.2.1]
  rfl

/-- C4: when turns `0` to `k - 1` of the loop returned nil and, in turn `k`, the batch
`pre ++ mi :: post` is received and written, the messages of `pre` are deleted
and the delete call for `mi` fails with `err`, then `Polling` returns exactly
`err`. The trace of that last turn holds `OnMessage` on `pre` and on `mi` and
nothing of `post`; its delete calls are those of `pre` followed by the single
one for `mi`; its only receive call is the one that brought the batch, and
the trace of `Polling` ends with that turn. -/
theorem polling_delete_failure (cfg : Config) (env : Nat → IterEnv) (ctx : Context)
    (k fuel : Nat) (out : ReceiveMessageOutput) (pre post : List Message) (mi : Message)
    (err : GoError)
    (hprev : ∀ n < k, (Polling.iteration cfg (env n) ctx (Extract ctx)).1 = .returned none)
    (hrecv : (env k).ReceiveMessage = .ok out) (hyaml : (env k).OutputAsYAML = none)
    (hmsgs : out.Messages = pre ++ mi :: post)
    (hids : ∀ m ∈ pre, m.MessageId ≠ none ∧ m.ReceiptHandle ≠ none)
    (hdel : ∀ j < pre.length, ((env k).onMessage j).DeleteMessage = none)
    (hid : mi.MessageId ≠ none) (hh : mi.ReceiptHandle ≠ none)
    (hfail : ((env k).onMessage pre.length).DeleteMessage = some err)
    (hfuel : k < fuel) :
    Polling cfg env ctx fuel
        = some (.returned (some err),
            pollingBanner cfg ctx :: (turns cfg env ctx (Extract ctx) 0 k ++
              turnTrace cfg (env k) ctx (Extract ctx) out (pre ++ [mi])
                (Polling.closeErr (some err) (env k).parentErr))) ∧
      deletes (turnTrace cfg (env k) ctx (Extract ctx) out (pre ++ [mi])
          (Polling.closeErr (some err) (env k).parentErr))
        = pre.map (fun m => ⟨cfg.optQueueURL, m.ReceiptHandle⟩)
            ++ [⟨cfg.optQueueURL, mi.ReceiptHandle⟩] ∧
      receives (turnTrace cfg (env k) ctx (Extract ctx) out (pre ++ [mi])
          (Polling.closeErr (some err) (env k).parentErr))
        = [receiveInput cfg] := by
  have hit := iteration_delete_fails cfg (env k) ctx (Extract ctx) out pre post mi err hrecv
    hyaml hmsgs hids hdel hid hh hfail
  have hloop := loop_reaches cfg env ctx (Extract ctx) (.returned (some err)) (by simp) k 0 fuel
    (fun n hn => by simpa using hprev n hn) (by simp [hit]) hfuel
  have hcalls := turnTrace_calls cfg (env k) ctx (Extract ctx) out (pre ++ [mi])
    (Polling.closeErr (some err) (env k).parentErr)
    (by
      intro m hm
      rcases List.mem_append.mp hm with hm | hm
      · exact hids m hm
      · rw [List.mem_singleton.mp hm]
        exact ⟨hid, hh⟩)
  refine ⟨?_, ?_, hcalls.2⟩
  · simp only [Polling, hloop, Option.map_some', pollingBanner]
    simp [hit]
  · rw [hcalls.1]
    simp [deleteInput]

/-- Witness of C4: in the first turn the delete call for the second of two messages
fails. -/
theorem polling_delete_failure_witness :
    (Polling sampleConfig (fun _ => deleteFailTurn) ⟨none, none⟩ 1).map Prod.fst
      = some (.returned (some (Errorf (lit "ReceiptHandleIsInvalid")))) := by
  rw [(polling_delete_failure sampleConfig (fun _ => deleteFailTurn) ⟨none, none⟩ 0 1
    ⟨[sampleMessage, sampleMessage2]⟩ [sampleMessage] [] sampleMessage2
    (Errorf (lit "ReceiptHandleIsInvalid"))
    (by intro n hn; omega) rfl rfl rfl (by decide) (by intro j hj; obtain rfl : j = 0 := by simpa using hj
                                                       rfl)
    (by decide) (by decide) rfl (by decide)).1]
  rfl

/-- C5: on a message whose `MessageId` and `ReceiptHandle` are set, `OnMessage` makes
exactly one delete call, with the queue URL and that receipt handle, and
returns the error of that call unchanged. When the attributes hold the key
`AWSTraceHeader`, its trace is: one segment made from that header value, the
log line, the delete call made within that segment, and one close of that
segment with the returned error. When the key is absent the trace opens and
closes no segment. -/
theorem onMessage_delete_and_segment (cfg : Config) (e : MessageEnv) (ctx : Context)
    (msg : Message) (id h : GoString)
    (hid : msg.MessageId = some id) (hh : msg.ReceiptHandle = some h) :
    (OnMessage cfg e ctx msg).1 = .returned e.DeleteMessage ∧
      deletes (OnMessage cfg e ctx msg).2 = [⟨cfg.optQueueURL, some h⟩] ∧
      (∀ th, GoMap.get msg.Attributes (lit "AWSTraceHeader") = some th →
        (∃ c l, (OnMessage cfg e ctx msg).2
            = [Event.NewSegmentFromHeader ⟨cfg.myName, some th, e.TraceID⟩,
               Event.Log l,
               Event.DeleteMessage c ⟨cfg.optQueueURL, some h⟩,
               Event.Close ⟨cfg.myName, some th, e.TraceID⟩ e.DeleteMessage] ∧
            c.segment = some ⟨cfg.myName, some th, e.TraceID⟩) ∧
          opened (OnMessage cfg e ctx msg).2 = [⟨cfg.myName, some th, e.TraceID⟩] ∧
          closes (OnMessage cfg e ctx msg).2
            = [(⟨cfg.myName, some th, e.TraceID⟩, e.DeleteMessage)]) ∧
      (GoMap.get msg.Attributes (lit "AWSTraceHeader") = none →
        opened (OnMessage cfg e ctx msg).2 = [] ∧ closes (OnMessage cfg e ctx msg).2 = []) := by
  refine ⟨?_, ?_, ?_, ?_⟩
  · exact (onMessage_of_ids cfg e ctx msg (by simp [hid]) (by simp [hh])).1
  · rw [(onMessage_of_ids cfg e ctx msg (by simp [hid]) (by simp [hh])).2.1]
    simp [deleteInput, hh]
  · intro th hth
    simp [OnMessage, OnMessage.delete, hid, hh, hth, opened, closes, Outcome.retErr, ToContext]
  · intro hth
    simp [OnMessage, OnMessage.delete, hid, hh, hth, opened, closes]

/-- Witness of C5 on a message that carries a trace header, with a failing delete call. -/
theorem onMessage_delete_and_segment_witness :
    (OnMessage sampleConfig ⟨lit "1-5759e988-bd862e3fe1be46a994272793", some Canceled⟩
        ⟨none, none⟩ sampleMessage).1 = .returned (some Canceled) ∧
      closes (OnMessage sampleConfig ⟨lit "1-5759e988-bd862e3fe1be46a994272793", some Canceled⟩
          ⟨none, none⟩ sampleMessage).2
        = [(⟨lit "sqs-subscribe", some (lit "Root=1-5759e988-bd862e3fe1be46a994272793"),
              lit "1-5759e988-bd862e3fe1be46a994272793"⟩, some Canceled)] := by
  have h := onMessage_delete_and_segment sampleConfig
    ⟨lit "1-5759e988-bd862e3fe1be46a994272793", some Canceled⟩ ⟨none, none⟩ sampleMessage
    (lit "m1") (lit "h1") rfl rfl
  exact ⟨h.1, (h.2.2.1 (lit "Root=1-5759e988-bd862e3fe1be46a994272793") (by decide)).2.2⟩

end SqsSubscribe

/-! ## The raw-mail driver -/

theorem GoMap.get_set {V : Type} (m : GoMap V) (k : GoString) (v : V) :
    GoMap.get (GoMap.set m k v) k = some v := by
  induction m with
  | nil => simp [GoMap.set, GoMap.get]
  | cons p rest ih =>
    obtain ⟨k', v'⟩ := p
    by_cases hk : k' = k
    · simp [GoMap.set, GoMap.get, hk]
    · simp [GoMap.set, GoMap.get, hk, ih]

namespace SesSendRawEmail

theorem hexDigit_ne_at (n : Nat) : hexDigit n ≠ 64 := by
  unfold hexDigit
  split <;> omega

theorem hexEncode_no_at (bs : List Nat) : 64 ∉ hexEncode bs := by
  intro h
  simp only [hexEncode, List.mem_flatMap, List.mem_cons, List.mem_singleton, List.not_mem_nil,
    or_false] at h
  obtain ⟨b, _, h | h⟩ := h
  · exact hexDigit_ne_at _ h.symm
  · exact hexDigit_ne_at _ h.symm

/-- The text `uuid.NewString` returns holds no `@`. -/
theorem newString_no_at (random : List Nat) : 64 ∉ NewString random := by
  intro h
  simp only [NewString, List.mem_append, List.mem_singleton] at h
  rcases h with (((((((h | h) | h) | h) | h) | h) | h) | h) | h
  all_goals first
    | exact hexEncode_no_at _ h
    | exact absurd h (by decide)

/-- What the loop of `strings.LastIndexByte` returns: -1 when the byte does not occur below
`n`, and otherwise the greatest index below `n` at which it occurs. -/
theorem lastIndexLoop_spec (s : GoString) (c : Nat) :
    ∀ n : Nat,
      (lastIndexLoop s c n = -1 ∧ ∀ j < n, s[j]? ≠ some c) ∨
      (∃ i : Nat, lastIndexLoop s c n = (i : Int) ∧ i < n ∧ s[i]? = some c ∧
        ∀ j, i < j → j < n → s[j]? ≠ some c) := by
  intro n
  induction n with
  | zero => exact Or.inl ⟨rfl, fun j hj => absurd hj (Nat.not_lt_zero j)⟩
  | succ n ih =>
    by_cases hn : s[n]? = some c
    · refine Or.inr ⟨n, by simp [lastIndexLoop, hn], Nat.lt_succ_self n, hn, ?_⟩
      intro j h1 h2
      omega
    · rcases ih with ⟨h1, h2⟩ | ⟨i, h1, h2, h3, h4⟩
      · refine Or.inl ⟨by simp [lastIndexLoop, hn, h1], ?_⟩
        intro j hj
        by_cases hjn : j = n
        · subst hjn; exact hn
        · exact h2 j (by omega)
      · refine Or.inr ⟨i, by simp [lastIndexLoop, hn, h1], by omega, h3, ?_⟩
        intro j hj1 hj2
        by_cases hjn : j = n
        · subst hjn; exact hn
        · exact h4 j hj1 (by omega)

/-- The slice `s[i+1:]` with `i := strings.LastIndexByte(s, '@')` is what follows the last
`@` of `s`: it holds no `@`, and `s` is either that slice (when `s` has no
`@`) or some bytes, an `@`, and that slice. -/
theorem drop_lastIndexByte (s : GoString) :
    64 ∉ s.drop (LastIndexByte s 64 + 1).toNat ∧
      (s = s.drop (LastIndexByte s 64 + 1).toNat ∨
        ∃ pre, s = pre ++ 64 :: s.drop (LastIndexByte s 64 + 1).toNat) := by
  unfold LastIndexByte
  rcases lastIndexLoop_spec s 64 s.length with ⟨h1, h2⟩ | ⟨i, h1, h2, h3, h4⟩
  · rw [h1]
    have hno : 64 ∉ s := by
      intro hmem
      obtain ⟨j, hj, hget⟩ := List.getElem_of_mem hmem
      have := h2 j hj
      rw [List.getElem?_eq_getElem hj, hget] at this
      exact this rfl
    have hz : ((-1 : Int) + 1).toNat = 0 := by decide
    rw [hz, List.drop_zero]
    exact ⟨hno, Or.inl rfl⟩
  · rw [h1]
    have htn : ((i : Int) + 1).toNat = i + 1 := by omega
    rw [htn]
    constructor
    · intro hmem
      obtain ⟨j, hj, hget⟩ := List.getElem_of_mem hmem
      rw [List.getElem_drop] at hget
      rw [List.length_drop] at hj
      have := h4 (i + 1 + j) (by omega) (by omega)
      rw [List.getElem?_eq_getElem (by omega), hget] at this
      exact this rfl
    · refine Or.inr ⟨s.take i, ?_⟩
      have hi : s[i] = 64 := by
        rw [List.getElem?_eq_getElem h2] at h3
        exact Option.some.inj h3
      rw [← hi, ← List.drop_eq_getElem_cons h2, List.take_append_drop]

theorem loop_ok (env : Env) :
    ∀ (tos dests d : List GoString), appendDest.loop env tos dests = .ok d →
      (∀ t ∈ tos, accepts env t = true) ∧ d = dests ++ parsed env tos := by
  intro tos
  induction tos with
  | nil =>
    intro dests d h
    simp only [appendDest.loop, Except.ok.injEq] at h
    simp [parsed, h]
  | cons t rest ih =>
    intro dests d h
    cases hp : env.ParseAddress t with
    | error err => simp [appendDest.loop, hp] at h
    | ok addr =>
      simp only [appendDest.loop, hp] at h
      obtain ⟨h1, h2⟩ := ih _ _ h
      refine ⟨?_, ?_⟩
      · intro x hx
        rcases List.mem_cons.mp hx with hx | hx
        · subst hx; simp [accepts, hp]
        · exact h1 x hx
      · rw [h2]
        simp [parsed, List.filterMap_cons, hp]

theorem loop_of_accepts (env : Env) :
    ∀ (tos dests : List GoString), (∀ t ∈ tos, accepts env t = true) →
      appendDest.loop env tos dests = .ok (dests ++ parsed env tos) := by
  intro tos
  induction tos with
  | nil => intro dests _; simp [appendDest.loop, parsed]
  | cons t rest ih =>
    intro dests h
    have ht := h t (by simp)
    cases hp : env.ParseAddress t with
    | error err => simp [accepts, hp] at ht
    | ok addr =>
      simp only [appendDest.loop, hp]
      rw [ih _ (fun x hx => h x (by simp [hx]))]
      simp [parsed, List.filterMap_cons, hp]

/-- A value that needs no encoding is left as it is by the header encoder. -/
theorem encodeString_of_plain (s : GoString) (h : needsEncoding s = false) :
    encodeString s = s := by
  simp [encodeString, h]

/-- A slice of values that need no encoding is left as it is by `SetHeader`. -/
theorem map_encodeString_of_plain :
    ∀ vs : List GoString, (∀ v ∈ vs, needsEncoding v = false) → vs.map encodeString = vs := by
  intro vs
  induction vs with
  | nil => intro _; rfl
  | cons v rest ih =>
    intro h
    rw [List.map_cons, encodeString_of_plain v (h v (by simp)),
      ih (fun x hx => h x (by simp [hx]))]

theorem needsEncoding_append (a b : GoString) :
    needsEncoding (a ++ b) = (needsEncoding a || needsEncoding b) := by
  simp [needsEncoding, List.any_append]

theorem needsEncoding_of_printable (s : GoString) (h : ∀ x ∈ s, 0x20 ≤ x ∧ x ≤ 0x7E) :
    needsEncoding s = false := by
  simp only [needsEncoding, List.any_eq_false]
  intro x hx
  have := h x hx
  simp only [Bool.and_eq_true, Bool.or_eq_true, decide_eq_true_eq, Bool.not_eq_true']
  omega

theorem hexDigit_printable (n : Nat) : 0x20 ≤ hexDigit n ∧ hexDigit n ≤ 0x7E := by
  unfold hexDigit
  split <;> omega

theorem hexEncode_printable (bs : List Nat) : ∀ x ∈ hexEncode bs, 0x20 ≤ x ∧ x ≤ 0x7E := by
  intro x h
  simp only [hexEncode, List.mem_flatMap, List.mem_cons, List.mem_singleton, List.not_mem_nil,
    or_false] at h
  obtain ⟨b, _, h | h⟩ := h
  · rw [h]; exact hexDigit_printable _
  · rw [h]; exact hexDigit_printable _

/-- The text `uuid.NewString` returns needs no header encoding. -/
theorem needsEncoding_newString (random : List Nat) : needsEncoding (NewString random) = false := by
  apply needsEncoding_of_printable
  intro x h
  simp only [NewString, List.mem_append, List.mem_singleton] at h
  rcases h with (((((((h | h) | h) | h) | h) | h) | h) | h) | h
  all_goals first
    | exact hexEncode_printable _ x h
    | (rw [h]; decide)

/-- What a successful call of `appendDestAndHeader` returns: the destinations of the loop
over `optTo`, and the slice `addrs` with every element encoded. -/
theorem appendDestAndHeader_ok (env : Env) (optTo dests : List GoString) (m : GoMessage)
    (addrs : List GoString) (field : GoString) (d : List GoString) (m' : GoMessage)
    (addrs' : List GoString)
    (h : appendDestAndHeader env optTo dests m addrs field = .ok (d, m', addrs')) :
    appendDest.loop env optTo dests = .ok d ∧ addrs' = addrs.map encodeString := by
  unfold appendDestAndHeader appendDest at h
  cases h1 : appendDest.loop env optTo dests with
  | error err => simp [h1] at h
  | ok d1 =>
    simp only [h1] at h
    by_cases hl : addrs.length > 0
    · simp only [hl, if_true, GoMessage.SetHeader, Except.ok.injEq, Prod.mk.injEq] at h
      exact ⟨by rw [h.1], h.2.2.symm⟩
    · simp only [hl, if_false, Except.ok.injEq, Prod.mk.injEq] at h
      have hnil : addrs = [] := List.eq_nil_of_length_eq_zero (by omega)
      refine ⟨by rw [h.1], ?_⟩
      rw [← h.2.2, hnil]
      rfl

/-- The call of `appendDestAndHeader` succeeds when the loop over `optTo` does. -/
theorem appendDestAndHeader_of_loop (env : Env) (optTo dests : List GoString) (m : GoMessage)
    (addrs : List GoString) (field : GoString) (d : List GoString)
    (h : appendDest.loop env optTo dests = .ok d) :
    ∃ m', appendDestAndHeader env optTo dests m addrs field
      = .ok (d, m', addrs.map encodeString) := by
  unfold appendDestAndHeader appendDest
  simp only [h]
  by_cases hl : addrs.length > 0
  · exact ⟨(m.SetHeader field addrs).1, by simp [hl, GoMessage.SetHeader]⟩
  · have hnil : addrs = [] := List.eq_nil_of_length_eq_zero (by omega)
    exact ⟨m, by simp [hnil]⟩

/-- What `run` has built when lines 79-133 succeed: every `--to` value was accepted as
given and as `SetHeader` rewrote it, the destinations are the addresses of the
`--to` values as given and then twice those of the rewritten values, and the
`Message-ID` header is the encoding of the flag or of the generated identifier. -/
theorem compose_ok (f : Flags) (env : Env) (b : GoString) (m : GoMessage)
    (dests : List GoString) (h : run.compose f env b = .ok (m, dests)) :
    (∀ t ∈ f.optTo, accepts env t = true) ∧
      (∀ t ∈ f.optTo.map encodeString, accepts env t = true) ∧
      dests = parsed env f.optTo ++ parsed env (f.optTo.map encodeString)
        ++ parsed env (f.optTo.map encodeString) ∧
      ∃ addr, env.ParseAddress f.optFrom = .ok addr ∧
        GoMap.get m.header (lit "Message-ID")
          = some [encodeString (if f.optMessageID = [] then
              lit "<" ++ NewString env.random ++ lit "@"
                ++ addr.Address.drop (LastIndexByte addr.Address 64 + 1).toNat ++ lit ">"
            else f.optMessageID)] := by
  unfold run.compose at h
  cases hp : env.ParseAddress f.optFrom with
  | error err => simp [hp] at h
  | ok addr =>
    simp only [hp] at h
    split at h
    · exact absurd h (by simp)
    · rename_i d1 m1 to1 h1
      obtain ⟨hl1, hto1⟩ := appendDestAndHeader_ok _ _ _ _ _ _ _ _ _ h1
      split at h
      · exact absurd h (by simp)
      · rename_i d2 m2 cc2 h2
        obtain ⟨hl2, _⟩ := appendDestAndHeader_ok _ _ _ _ _ _ _ _ _ h2
        split at h
        · exact absurd h (by simp)
        · rename_i d3 h3
          simp only [appendDest] at h3
          simp only [Except.ok.injEq, Prod.mk.injEq] at h
          obtain ⟨hm, hd⟩ := h
          subst hto1
          obtain ⟨ha1, hd1⟩ := loop_ok env _ _ _ hl1
          obtain ⟨ha2, hd2⟩ := loop_ok env _ _ _ hl2
          obtain ⟨_, hd3⟩ := loop_ok env _ _ _ h3
          refine ⟨ha1, ha2, ?_, addr, rfl, ?_⟩
          · rw [← hd, hd3, hd2, hd1]
            simp
          · rw [← hm]
            simp only [GoMessage.SetBody, GoMessage.SetHeader, List.map_cons, List.map_nil]
            exact GoMap.get_set _ _ _

/-- When the `--from` value and every `--to` value, as given and as rewritten, are accepted,
lines 79-133 of `run` succeed, whatever the `--cc` and `--bcc` values are. -/
theorem compose_of_accepts (f : Flags) (env : Env) (b : GoString)
    (hfrom : accepts env f.optFrom = true) (hto : ∀ t ∈ f.optTo, accepts env t = true)
    (hto' : ∀ t ∈ f.optTo.map encodeString, accepts env t = true) :
    ∃ m, run.compose f env b
      = .ok (m, parsed env f.optTo ++ parsed env (f.optTo.map encodeString)
          ++ parsed env (f.optTo.map encodeString)) := by
  unfold run.compose
  cases hp : env.ParseAddress f.optFrom with
  | error err => simp [accepts, hp] at hfrom
  | ok addr =>
    have h1 := loop_of_accepts env f.optTo [] hto
    have h2 := loop_of_accepts env (f.optTo.map encodeString) ([] ++ parsed env f.optTo) hto'
    have h3 := loop_of_accepts env (f.optTo.map encodeString)
      ([] ++ parsed env f.optTo ++ parsed env (f.optTo.map encodeString)) hto'
    obtain ⟨m1, hm1⟩ := appendDestAndHeader_of_loop env f.optTo []
      (if f.optSubject ≠ [] then
        ((NewMessage.SetHeader (lit "From") [f.optFrom]).1.SetHeader (lit "Subject")
          [f.optSubject]).1
      else (NewMessage.SetHeader (lit "From") [f.optFrom]).1)
      f.optTo (lit "To") _ h1
    obtain ⟨m2, hm2⟩ := appendDestAndHeader_of_loop env (f.optTo.map encodeString) _ m1
      f.optCC (lit "Cc") _ h2
    simp only [List.nil_append] at hm1 hm2 h3
    simp only [hm1, hm2, appendDest, h3]
    exact ⟨_, rfl⟩

/-- The addresses parsed from accepted values correspond to them one by one, in order. -/
theorem parsed_forall₂ (env : Env) :
    ∀ vs : List GoString, (∀ v ∈ vs, accepts env v = true) →
      List.Forall₂ (fun v a => ∃ addr, env.ParseAddress v = .ok addr ∧ addr.Address = a)
        vs (parsed env vs) := by
  intro vs
  induction vs with
  | nil => intro _; exact List.Forall₂.nil
  | cons v rest ih =>
    intro h
    have hv := h v (by simp)
    cases hp : env.ParseAddress v with
    | error err => simp [accepts, hp] at hv
    | ok addr =>
      have hrest := ih (fun x hx => h x (by simp [hx]))
      have : parsed env (v :: rest) = addr.Address :: parsed env rest := by
        simp [parsed, List.filterMap_cons, hp]
      rw [this]
      exact List.Forall₂.cons ⟨addr, hp, rfl⟩ hrest

/-- The trace of `run` holds a send call only when lines 79-133 succeeded, and then the
call carries the destinations built there. -/
theorem send_mem_run (f : Flags) (env : Env) (input : SendRawEmailInput)
    (h : Event.SendRawEmail input ∈ (run f env).2) :
    ∃ b m, run.compose f env b = .ok (m, input.Destinations) := by
  unfold run at h
  by_cases hb : f.optBody = []
  · simp [hb] at h
  by_cases hf : f.optFrom = []
  · simp [hb, hf] at h
  simp only [hb, hf, if_false] at h
  cases hr : env.ReadFile f.optBody with
  | error err => simp [hr] at h
  | ok b =>
    simp only [hr] at h
    cases hc : run.compose f env b with
    | error err => simp [hc] at h
    | ok p =>
      obtain ⟨m, dests⟩ := p
      simp only [hc] at h
      refine ⟨b, m, ?_⟩
      unfold run.send at h
      cases hl : env.LoadDefaultConfig with
      | some err => simp [hl] at h
      | none =>
        simp only [hl] at h
        cases hs : env.SendRawEmail with
        | error err =>
          simp [hs] at h
          rw [h]
          exact hc
        | ok out =>
          simp [hs] at h
          rw [h]
          exact hc

/-- C10, refuted as stated: with the single `--to` value `jörg@example.com`, which
`mail.ParseAddress` accepts as given and as `SetHeader` rewrote it, `run`
reaches `SendRawEmail`, and the `Destinations` are the address as given followed
twice by `=?UTF-8?q?j=C3=B6rg@example.com?=`: not the parsed `--to` address
three times. -/
theorem destinations_of_umlaut_to :
    parsed sampleEnv umlautFlags.optTo = [[0x6A, 0xC3, 0xB6] ++ lit "rg@example.com"] ∧
      destinations (run umlautFlags sampleEnv).2
        = [[[0x6A, 0xC3, 0xB6] ++ lit "rg@example.com",
            lit "=?UTF-8?q?j=C3=B6rg@example.com?=",
            lit "=?UTF-8?q?j=C3=B6rg@example.com?="]] ∧
      destinations (run umlautFlags sampleEnv).2
        ≠ [parsed sampleEnv umlautFlags.optTo ++ parsed sampleEnv umlautFlags.optTo
            ++ parsed sampleEnv umlautFlags.optTo] := by
  decide

/-- C10, amended: whenever the trace of `run` holds a `SendRawEmail` call, its
`Destinations` are determined by the `--to` values alone. They are the addresses
parsed from the `--to` values, in order, followed twice by the addresses parsed
from the `--to` values as `SetHeader` left them, each replaced by its header
encoding. The `--cc` and `--bcc` values contribute nothing. When no `--to` value
needs encoding (printable ASCII and tabs only), that is the list of parsed
`--to` addresses three times over. -/
theorem destinations_from_to_values (f : Flags) (env : Env) (input : SendRawEmailInput)
    (h : Event.SendRawEmail input ∈ (run f env).2) :
    List.Forall₂ (fun v a => ∃ addr, env.ParseAddress v = .ok addr ∧ addr.Address = a)
        f.optTo (parsed env f.optTo) ∧
      List.Forall₂ (fun v a => ∃ addr, env.ParseAddress v = .ok addr ∧ addr.Address = a)
        (f.optTo.map encodeString) (parsed env (f.optTo.map encodeString)) ∧
      input.Destinations = parsed env f.optTo ++ parsed env (f.optTo.map encodeString)
        ++ parsed env (f.optTo.map encodeString) ∧
      ((∀ t ∈ f.optTo, needsEncoding t = false) →
        input.Destinations = parsed env f.optTo ++ parsed env f.optTo ++ parsed env f.optTo) := by
  obtain ⟨b, m, hc⟩ := send_mem_run f env input h
  obtain ⟨hacc, hacc', hd, _⟩ := compose_ok f env b m input.Destinations hc
  refine ⟨parsed_forall₂ env f.optTo hacc, parsed_forall₂ env _ hacc', hd, ?_⟩
  intro hplain
  rw [hd, map_encodeString_of_plain f.optTo hplain]

/-- Witness of the amended C10: with one `--to` value and one `--cc` value the send call
carries the `--to` address three times. -/
theorem destinations_from_to_values_witness :
    destinations (run sampleFlags sampleEnv).2
        = [[lit "a@example.com", lit "a@example.com", lit "a@example.com"]] ∧
      (∀ t ∈ sampleFlags.optTo, needsEncoding t = false) ∧
      (⟨sampleEnv.WriteTo
            ⟨[(lit "From", [lit "me@example.org"]), (lit "Subject", [lit "hi"]),
              (lit "To", [lit "a@example.com"]), (lit "Cc", [lit "bad"]),
              (lit "Message-ID", [lit "<01234567-89ab-4def-8123-456789abcdef@example.org>"])],
             some (lit "text/plain", lit "hello")⟩,
          [lit "a@example.com", lit "a@example.com", lit "a@example.com"], none⟩
          : SendRawEmailInput).Destinations
        = parsed sampleEnv sampleFlags.optTo ++ parsed sampleEnv sampleFlags.optTo
            ++ parsed sampleEnv sampleFlags.optTo :=
  ⟨by decide, by decide,
    (destinations_from_to_values sampleFlags sampleEnv _ (by decide)).2.2.2 (by decide)⟩

/-- C1 on the code: when the body file is readable and the `--from` value and every `--to`
value, as given and as `SetHeader` rewrote it (for a printable ASCII value the
two are the same), are accepted by `mail.ParseAddress`, `run` calls
`config.LoadDefaultConfig` even though some `--cc` or `--bcc` value is
rejected; and when the configuration loads, it calls `SendRawEmail` with
`Destinations` made of `--to` addresses only. -/
theorem run_reaches_network_despite_rejected_cc (f : Flags) (env : Env) (b : GoString)
    (hbody : f.optBody ≠ []) (hfromne : f.optFrom ≠ [])
    (hread : env.ReadFile f.optBody = .ok b)
    (hfrom : accepts env f.optFrom = true) (hto : ∀ t ∈ f.optTo, accepts env t = true)
    (hto' : ∀ t ∈ f.optTo.map encodeString, accepts env t = true)
    (_hbad : ∃ v ∈ f.optCC ++ f.optBCC, accepts env v = false) :
    Event.LoadDefaultConfig env.AWS_REGION ∈ (run f env).2 ∧
      (env.LoadDefaultConfig = none →
        ∃ input, Event.SendRawEmail input ∈ (run f env).2 ∧
          input.Destinations
            = parsed env f.optTo ++ parsed env (f.optTo.map encodeString)
                ++ parsed env (f.optTo.map encodeString)) := by
  obtain ⟨m, hc⟩ := compose_of_accepts f env b hfrom hto hto'
  have hrun : run f env
      = ((run.send f env m (parsed env f.optTo ++ parsed env (f.optTo.map encodeString)
            ++ parsed env (f.optTo.map encodeString))).1,
          Event.ReadFile f.optBody ::
            (run.send f env m (parsed env f.optTo ++ parsed env (f.optTo.map encodeString)
              ++ parsed env (f.optTo.map encodeString))).2) := by
    simp [run, hbody, hfromne, hread, hc]
  rw [hrun]
  constructor
  · unfold run.send
    cases hl : env.LoadDefaultConfig with
    | some err => simp
    | none => cases hs : env.SendRawEmail <;> simp
  · intro hl
    unfold run.send
    cases hs : env.SendRawEmail <;> simp [hl]

/-- Witness of the behaviour behind C1: `--to a@example.com --cc bad`. -/
theorem run_reaches_network_despite_rejected_cc_witness :
    accepts sampleEnv (lit "bad") = false ∧
      (run sampleFlags sampleEnv).1 = none ∧
      Event.LoadDefaultConfig sampleEnv.AWS_REGION ∈ (run sampleFlags sampleEnv).2 ∧
      ((run sampleFlags sampleEnv).2.filter isNetworkCall).length = 2 ∧
      destinations (run sampleFlags sampleEnv).2
        = [[lit "a@example.com", lit "a@example.com", lit "a@example.com"]] :=
  ⟨by decide, by decide,
    (run_reaches_network_despite_rejected_cc sampleFlags sampleEnv (lit "hello")
      (by decide) (by decide) rfl (by decide) (by decide) (by decide)
      ⟨lit "bad", by decide, by decide⟩).1,
    by decide, by decide⟩

/-- C6, refuted as stated: with `--from micro@µ.example.com`, which `mail.ParseAddress`
accepts, and no `--message-id`, the `Message-ID` header of the message is the
encoded word `=?UTF-8?q?<...@=C2=B5.example.com>?=`: it begins with `=`, not
with `<`. -/
theorem messageID_of_non_ascii_domain :
    accepts sampleEnv microFlags.optFrom = true ∧
      (match run.compose microFlags sampleEnv (lit "hello") with
        | .ok (m, _) => GoMap.get m.header (lit "Message-ID")
        | .error _ => none)
        = some [lit "=?UTF-8?q?<01234567-89ab-4def-8123-456789abcdef@=C2=B5.example.com>?="] ∧
      (lit "=?UTF-8?q?<01234567-89ab-4def-8123-456789abcdef@=C2=B5.example.com>?=").head?
        ≠ (lit "<").head? := by
  decide

/-- C6, amended: when `--message-id` is empty and lines 79-133 of `run` succeed with the
message `m`, the `--from` value was accepted by `mail.ParseAddress` as some
address, and the identifier `run` hands to `SetHeader` is `<`, a token with no
`@`, `@`, a domain, `>`, where the domain holds no `@` and is what follows the
last `@` of that address: the address is some bytes, an `@` and the domain
(or the domain alone, had it no `@`). The `Message-ID` header of `m` is the
header encoding of that identifier, which is the identifier itself when the
domain needs no encoding (printable ASCII and tabs only). And `run`, once
the flags are there and the body is read, goes on with this very message. -/
theorem messageID_generated (f : Flags) (env : Env) (b : GoString) (m : GoMessage)
    (dests : List GoString) (hid : f.optMessageID = [])
    (h : run.compose f env b = .ok (m, dests)) :
    (∃ addr tok domain, env.ParseAddress f.optFrom = .ok addr ∧
        GoMap.get m.header (lit "Message-ID")
          = some [encodeString (lit "<" ++ tok ++ lit "@" ++ domain ++ lit ">")] ∧
        64 ∉ tok ∧ 64 ∉ domain ∧
        (addr.Address = domain ∨ ∃ pre, addr.Address = pre ++ lit "@" ++ domain) ∧
        (needsEncoding domain = false →
          GoMap.get m.header (lit "Message-ID")
            = some [lit "<" ++ tok ++ lit "@" ++ domain ++ lit ">"])) ∧
      (f.optBody ≠ [] → f.optFrom ≠ [] → env.ReadFile f.optBody = .ok b →
        run f env
          = ((run.send f env m dests).1, Event.ReadFile f.optBody :: (run.send f env m dests).2)) := by
  obtain ⟨_, _, _, addr, hp, hget⟩ := compose_ok f env b m dests h
  rw [if_pos hid] at hget
  obtain ⟨hno, hsplit⟩ := drop_lastIndexByte addr.Address
  refine ⟨⟨addr, NewString env.random, _, hp, hget, newString_no_at env.random, hno, ?_, ?_⟩, ?_⟩
  · rcases hsplit with hs | ⟨pre, hs⟩
    · exact Or.inl hs
    · refine Or.inr ⟨pre, ?_⟩
      rw [List.append_assoc]
      exact hs
  · intro hplain
    rw [hget, encodeString_of_plain]
    simp only [needsEncoding_append, needsEncoding_newString, hplain, Bool.or_false,
      Bool.false_or]
    simp only [Bool.or_eq_false_iff, and_self]
    decide
  · intro hbody hfromne hread
    simp [run, hbody, hfromne, hread, h]

/-- Witness of the amended C6: `--from me@example.org`, no `--message-id`. -/
theorem messageID_generated_witness :
    ∃ m dests, run.compose sampleFlags sampleEnv (lit "hello") = .ok (m, dests) ∧
      GoMap.get m.header (lit "Message-ID")
        = some [lit "<01234567-89ab-4def-8123-456789abcdef@example.org>"] ∧
      ∃ addr tok domain, sampleEnv.ParseAddress sampleFlags.optFrom = .ok addr ∧
        GoMap.get m.header (lit "Message-ID")
          = some [encodeString (lit "<" ++ tok ++ lit "@" ++ domain ++ lit ">")] ∧
        64 ∉ tok ∧ 64 ∉ domain ∧
        (addr.Address = domain ∨ ∃ pre, addr.Address = pre ++ lit "@" ++ domain) ∧
        (needsEncoding domain = false →
          GoMap.get m.header (lit "Message-ID")
            = some [lit "<" ++ tok ++ lit "@" ++ domain ++ lit ">"]) :=
  ⟨_, _, rfl, by decide,
    (messageID_generated sampleFlags sampleEnv (lit "hello") _ _ rfl rfl).1⟩

end SesSendRawEmail

end GoAwsPlayground
